import Mathlib

/-!
# Verification of the cpu-sim pipeline / core / simulator

Shallow embedding of the Go sources of `jasonKoogler/cpu-sim`:
* `internal/pipeline` (Stage, Instruction, Pipeline, NewPipeline,
  AdvanceStages, InsertInstruction, IsFull, IsEmpty, Flush, GetStages),
* `internal/core` (ExecutionUnit, Processor, NewProcessor, Cycle, Reset,
  GetUtilization, GetPipelineState),
* `internal/simulator` (Statistics, calculateStatistics, Run).

Modelling conventions:
* Go machine integers (`int`, `int64`) are modelled as `Int`, `uint64`/`uint8`
  as `Nat`.  Wraparound is not modelled: every counter in the program grows by
  at most 1 (or 4) per simulated cycle, so reaching the wrap bound 2^63 / 2^64
  is unreachable in any run; no arithmetic in the sources depends on overflow.
* `float64` appears only as data that is stored, zeroed, or divided once
  (utilization / IPC); no rounding-sensitive arithmetic is performed on it.
  Divisions are modelled over `Rat`; stored float registers, which are only
  ever written and reset to zero, are modelled as `Int` stand-ins.
* Go code that can panic (out-of-range slice index) is modelled by the
  `GoRes.panicked` outcome; returned `error`s by `GoRes.err`.
* Mutexes/atomics guard single-threaded per-object access; they have no
  observable effect on the sequential semantics and are dropped.
-/

set_option maxHeartbeats 1000000

namespace CpuSim

/-- Outcome of a Go call: a returned value, a returned `error`, or a runtime
panic (e.g. slice index out of range). -/
inductive GoRes (α : Type) where
  | ok (a : α)
  | err (msg : String)
  | panicked
deriving Repr, DecidableEq

/-- `pipeline.Instruction`: an instruction in flight inside the pipeline.
`Address`/`Opcode`/`Operands` are `uint64`/`uint8`/`[]uint8`, modelled as
`Nat`; `CyclesLeft` is a Go `int` and can go negative. -/
structure Instruction where
  address : Nat
  opcode : Nat
  operands : List Nat
  type : String
  cyclesLeft : Int
deriving Repr, DecidableEq

/-- `pipeline.Stage`: one pipeline position.  In Go the `Instruction` field is
a pointer; here it is the instruction value (aliasing through the pointer is
modelled separately in the `RefModel` namespace). -/
structure Stage where
  name : String
  instruction : Option Instruction
  busy : Bool
  latency : Int
deriving Repr, DecidableEq

/-- `pipeline.Pipeline`: the ordered stage sequence (the mutex is dropped). -/
structure Pipeline where
  stages : List Stage
deriving Repr, DecidableEq

/-- A cleared stage as built by `NewPipeline`: `Busy: false`, nil instruction. -/
def mkStage (name : String) (latency : Int) : Stage :=
  { name := name, instruction := none, busy := false, latency := latency }

/-- `stages[i] = s` in Go: panics when `i` is out of range. -/
def setStage (l : List Stage) (i : Nat) (s : Stage) : GoRes (List Stage) :=
  if i < l.length then .ok (l.set i s) else .panicked

/-- Name of middle stage `i` in the generic (default) topology:
`Issue` at position 2 for depth > 4, `Memory` at position 3 for depth > 5,
else `Stage<i>`. -/
def middleStageName (depth i : Nat) : String :=
  if i = 2 ∧ depth > 4 then "Issue"
  else if i = 3 ∧ depth > 5 then "Memory"
  else "Stage" ++ toString i

/-- The body of the `for i := 2; i < depth-2; i++` fill loop of the generic
topology, with the remaining iteration count `k = (depth-2) - i` made explicit
(structural recursion so the definition evaluates by `decide`). -/
def fillMiddleAux (depth : Nat) : Nat → Nat → List Stage → List Stage
  | 0, _, l => l
  | k + 1, i, l =>
    fillMiddleAux depth k (i + 1) (l.set i (mkStage (middleStageName depth i) 1))

/-- The `for i := 2; i < depth-2; i++` fill loop of the generic topology:
runs `depth - 2 - i` iterations, writing index `i` at each. -/
def fillMiddle (depth i : Nat) (l : List Stage) : List Stage :=
  fillMiddleAux depth (depth - 2 - i) i l

/-- The body of the `for i := 11; i < depth; i++` fill loop of the deep x86
topology (`ExtraStage<i-10>`), with the remaining iteration count explicit. -/
def fillExtraAux : Nat → Nat → List Stage → List Stage
  | 0, _, l => l
  | k + 1, i, l =>
    fillExtraAux k (i + 1) (l.set i (mkStage ("ExtraStage" ++ toString (i - 10)) 1))

/-- The `for i := 11; i < depth; i++` fill loop of the deep x86 topology:
runs `depth - i` iterations, writing index `i` at each. -/
def fillExtra (depth i : Nat) (l : List Stage) : List Stage :=
  fillExtraAux (depth - i) i l

/-- Placeholder for a not-yet-assigned slice entry (`nil` stage pointer in Go).
Every entry is overwritten before the constructed pipeline is returned. -/
def nilStage : Stage := mkStage "" 0

/-- The first eleven stages of the deep (depth > 10) x86 topology, written by
index into the freshly allocated slice.  All indices are < 11 ≤ depth, so none
of these writes can panic. -/
def x86DeepBase (depth : Nat) : List Stage :=
  ((((((((((((List.replicate depth nilStage).set 0 (mkStage "Fetch1" 1)).set 1
      (mkStage "Fetch2" 1)).set 2 (mkStage "Decode1" 1)).set 3
      (mkStage "Decode2" 1)).set 4 (mkStage "Decode3" 1)).set 5
      (mkStage "Rename" 1)).set 6 (mkStage "Schedule" 1)).set 7
      (mkStage "Dispatch" 1)).set 8 (mkStage "Execute" 1)).set 9
      (mkStage "Memory" 1)).set 10 (mkStage "Writeback" 1))

/-- `pipeline.NewPipeline(depth, isa)`.  Returns `err` for `depth <= 0`,
otherwise builds the stage list exactly as the Go `switch` does.  The generic
(default) branch allocates `depth` nil entries and assigns indices
`0`, `depth-1`, then (unless `depth == 3`) `1` and `depth-2`; the assignment
to index `1` is out of range when `depth == 1`, which in Go panics
(`GoRes.panicked` here). -/
def NewPipeline (depth : Int) (isa : String) : GoRes Pipeline :=
  if depth ≤ 0 then .err "pipeline depth must be positive"
  else
    -- `depth.toNat` is the depth as a Nat (depth > 0 here)
    if depth.toNat = 5 ∧ (isa = "RISC-V" ∨ isa = "MIPS") then
      .ok ⟨[mkStage "Fetch" 1, mkStage "Decode" 1, mkStage "Execute" 1,
            mkStage "Memory" 1, mkStage "Writeback" 1]⟩
    else if depth.toNat = 6 ∧ isa = "x86" then
      .ok ⟨[mkStage "Fetch" 1, mkStage "Decode" 2, mkStage "Issue" 1,
            mkStage "Execute" 1, mkStage "Memory" 1, mkStage "Writeback" 1]⟩
    else if depth.toNat > 10 ∧ isa = "x86" then
      .ok ⟨fillExtra depth.toNat 11 (x86DeepBase depth.toNat)⟩
    else
      match setStage (List.replicate depth.toNat nilStage) 0 (mkStage "Fetch" 1) with
      | .ok l₁ =>
        match setStage l₁ (depth.toNat - 1) (mkStage "Writeback" 1) with
        | .ok l₂ =>
          if depth.toNat = 3 then
            match setStage l₂ 1 (mkStage "Execute" 1) with
            | .ok l₃ => .ok ⟨l₃⟩
            | _ => .panicked
          else
            match setStage l₂ 1 (mkStage "Decode" 1) with
            | .ok l₃ =>
              match setStage l₃ (depth.toNat - 2) (mkStage "Execute" 1) with
              | .ok l₄ => .ok ⟨fillMiddle depth.toNat 2 l₄⟩
              | _ => .panicked
            | _ => .panicked
        | _ => .panicked
      | _ => .panicked

/-- Processing of one stage inside `AdvanceStages`, given the already-processed
downstream stages `rest'` (the Go loop runs tail-to-head, so when stage `i` is
handled, stages `i+1 .. n-1` hold their updated values; stage `i`
reads and writes only itself and its immediate successor).  Returns the updated
`stage :: downstream` list and whether this stage counted as work. -/
def stepStage (st : Stage) (rest' : List Stage) : List Stage × Bool :=
  match st.busy, st.instruction with
  | true, some inst =>
    -- stage.Instruction.CyclesLeft--
    let inst' := { inst with cyclesLeft := inst.cyclesLeft - 1 }
    if inst'.cyclesLeft ≤ 0 then
      match rest' with
      | [] =>
        -- last stage: the instruction retires
        ([{ st with instruction := none, busy := false }], true)
      | next :: tail =>
        if next.busy then
          -- next stage busy: stall in place (with the decremented counter)
          ({ st with instruction := some inst' } :: next :: tail, true)
        else
          -- move to next stage; its CyclesLeft is reset to next.Latency
          ({ st with instruction := none, busy := false } ::
            { next with busy := true,
                        instruction := some { inst' with cyclesLeft := next.latency } } :: tail,
           true)
    else
      ({ st with instruction := some inst' } :: rest', true)
  | _, _ => (st :: rest', false)

/-- The tail-to-head loop of `AdvanceStages`, realized as structural recursion:
the tail (downstream stages) is processed first, then the head stage is
processed against the already-updated downstream list — exactly the Go
`for i := n-1; i >= 0; i--` loop, in which step `i` touches only stages `i`
and `i+1`.  The boolean is the accumulated `workDone`. -/
def advList : List Stage → List Stage × Bool
  | [] => ([], false)
  | st :: rest =>
    let r := advList rest
    let s := stepStage st r.1
    (s.1, s.2 || r.2)

/-- `pipeline.AdvanceStages()`: advances instructions, returns the updated
pipeline and whether any work was done. -/
def AdvanceStages (p : Pipeline) : Pipeline × Bool :=
  let r := advList p.stages
  (⟨r.1⟩, r.2)

/-- `pipeline.InsertInstruction(inst)`: succeeds only if stage 0 is free; on
success stage 0 receives the instruction with `CyclesLeft` set to stage 0's
latency.  (Go would panic on an empty stage slice — `NewPipeline` always
returns at least one stage; the `[]` case is modelled as a rejected insert and
is never exercised by constructed pipelines.) -/
def InsertInstruction (p : Pipeline) (inst : Instruction) : Pipeline × Bool :=
  match p.stages with
  | [] => (p, false)
  | s0 :: rest =>
    if s0.busy then (p, false)
    else
      (⟨{ s0 with instruction := some { inst with cyclesLeft := s0.latency },
                  busy := true } :: rest⟩, true)

/-- `pipeline.IsFull()`: stage 0 is busy.  (Empty stage list: Go would panic;
unreachable for constructed pipelines, modelled as `false`.) -/
def IsFull (p : Pipeline) : Bool :=
  match p.stages with
  | [] => false
  | s0 :: _ => s0.busy

/-- `pipeline.IsEmpty()`: no stage is busy. -/
def IsEmpty (p : Pipeline) : Bool :=
  p.stages.all (fun st => !st.busy)

/-- `pipeline.Flush()`: unconditionally clears every stage. -/
def Flush (p : Pipeline) : Pipeline :=
  ⟨p.stages.map (fun st => { st with instruction := none, busy := false })⟩

/-- `pipeline.GetStages()`: returns a fresh slice whose entries are copies of
the stage records (`stageCopy := *stage`).  In the value model the copied
records are equal to the originals; the sharing of the `Instruction` pointer
inside the copies is modelled in the `RefModel` namespace. -/
def GetStages (p : Pipeline) : List Stage :=
  p.stages.map (fun st =>
    { name := st.name, instruction := st.instruction, busy := st.busy,
      latency := st.latency })

/-- The stage names of a successfully constructed pipeline (observation helper). -/
def stageNames : GoRes Pipeline → Option (List String)
  | .ok p => some (p.stages.map Stage.name)
  | _ => none

/-! ## internal/core: the Processor -/

/-- `config.Config`.  Fields beyond `NumCores`/`ISA`/`PipelineDepth` are inert
configuration for this core (accepted, never read by Processor/Simulator). -/
structure Config where
  numCores : Int
  clockFrequency : Int
  isa : String
  pipelineDepth : Int
  coherenceProtocol : String
  interconnectType : String
deriving Repr, DecidableEq

/-- `core.ExecutionUnit`: a static capacity descriptor. -/
structure ExecutionUnit where
  type : String
  busy : Bool
  pipeline : Int
deriving Repr, DecidableEq

/-- `core.Instruction` (the Core-side instruction record; the instruction
queue holding these is allocated empty and never filled by `Cycle`). -/
structure CoreInstr where
  address : Nat
  opcode : Nat
  operands : List Nat
  type : String
  stage : String
  cyclesLeft : Int
deriving Repr, DecidableEq

/-- `core.Processor`.  `executionUnits` is the `map[string][]*ExecutionUnit`,
modelled as an association list in construction order (`Cycle` never reads it
and `Reset` clears every entry, so map iteration order is immaterial).
Float registers are only ever stored to and zeroed, so their values are
modelled as `Int` stand-ins for the stored `float64`s. -/
structure Core where
  id : Int
  config : Config
  pipeline : Pipeline
  instructionQueue : List CoreInstr
  executionUnits : List (String × List ExecutionUnit)
  registersInt : List Nat
  registersFloat : List Int
  pc : Nat
  executedInstructions : Int
  cycleCount : Int
  busyCycles : Int
deriving Repr, DecidableEq

/-- The fixed execution-unit inventory built by `NewProcessor`:
2 ALUs (1 stage), 1 FPU (3 stages), 1 LoadStore (1 stage), 1 Branch (1 stage). -/
def defaultExecutionUnits : List (String × List ExecutionUnit) :=
  [("ALU", [{ type := "ALU", busy := false, pipeline := 1 },
            { type := "ALU", busy := false, pipeline := 1 }]),
   ("FPU", [{ type := "FPU", busy := false, pipeline := 3 }]),
   ("LoadStore", [{ type := "LoadStore", busy := false, pipeline := 1 }]),
   ("Branch", [{ type := "Branch", busy := false, pipeline := 1 }])]

/-- Register-file sizes chosen by `NewProcessor`'s ISA switch
(default branch: 32/32). -/
def registerSizes (isa : String) : Nat × Nat :=
  if isa = "RISC-V" then (32, 32)
  else if isa = "x86" then (16, 8)
  else if isa = "ARM" then (16, 32)
  else if isa = "MIPS" then (32, 32)
  else (32, 32)

/-- `core.NewProcessor(id, cfg)`: errors on nil configuration, propagates
pipeline construction failure (a construction panic also propagates). -/
def NewProcessor (id : Int) (cfg : Option Config) : GoRes Core :=
  match cfg with
  | none => .err "nil configuation provided"
  | some cfg =>
    match NewPipeline cfg.pipelineDepth cfg.isa with
    | .err e => .err ("failed to create pipeline: " ++ e)
    | .panicked => .panicked
    | .ok pipe =>
      let sizes := registerSizes cfg.isa
      .ok { id := id
            config := cfg
            pipeline := pipe
            instructionQueue := []
            executionUnits := defaultExecutionUnits
            registersInt := List.replicate sizes.1 0
            registersFloat := List.replicate sizes.2 0
            pc := 0
            executedInstructions := 0
            cycleCount := 0
            busyCycles := 0 }

/-- `core.fetchNextInstruction`: synthesizes one instruction (opcode `0x01`,
operands `r1 = r2 + r3`, type Integer) and advances the program counter by 4.
Returns the instruction and the updated core.  (It never returns nil.) -/
def fetchNextInstruction (p : Core) : CoreInstr × Core :=
  ({ address := p.pc, opcode := 1, operands := [1, 2, 3], type := "Integer",
     stage := "Fetch", cyclesLeft := 1 },
   { p with pc := p.pc + 4 })

/-- The retirement test of `Cycle`:
`len(stages) > 0 && !stages[len(stages)-1].Busy`. -/
def lastStageFree (stages : List Stage) : Bool :=
  match stages.getLast? with
  | some st => !st.busy
  | none => false

/-- `core.Processor.Cycle()`: increments the cycle counter, advances the
pipeline, on every 5th cycle fetches/inserts a synthetic instruction if the
pipeline is not full, counts a completed instruction when the last stage is
free on a 5th cycle, and counts a busy cycle when any work was done.
(`%` on the always-nonnegative `cycleCount` is Go's truncated `Int.tmod`.) -/
def Cycle (p0 : Core) : Core :=
  let p1 := { p0 with cycleCount := p0.cycleCount + 1 }
  let adv := AdvanceStages p1.pipeline
  let p2 := { p1 with pipeline := adv.1 }
  let fetched :=
    if ¬ (IsFull p2.pipeline) = true ∧ Int.tmod p2.cycleCount 5 = 0 then
      let f := fetchNextInstruction p2
      let pipelineInst : Instruction :=
        { address := f.1.address, opcode := f.1.opcode, operands := f.1.operands,
          type := f.1.type, cyclesLeft := 1 }
      let ins := InsertInstruction f.2.pipeline pipelineInst
      ({ f.2 with pipeline := ins.1 }, adv.2 || ins.2)
    else (p2, adv.2)
  let p3 := fetched.1
  let stages := GetStages p3.pipeline
  let p4 :=
    if lastStageFree stages = true ∧ Int.tmod p3.cycleCount 5 = 0 then
      { p3 with executedInstructions := p3.executedInstructions + 1 }
    else p3
  if fetched.2 then { p4 with busyCycles := p4.busyCycles + 1 } else p4

/-- `core.Processor.GetExecutedInstructions()` (atomic load). -/
def GetExecutedInstructions (p : Core) : Int :=
  p.executedInstructions

/-- `core.Processor.GetUtilization()`: busy cycles / total cycles, `0` when no
cycle has elapsed.  The `float64` quotient is modelled over `Rat`. -/
def GetUtilization (p : Core) : Rat :=
  if p.cycleCount = 0 then 0
  else (p.busyCycles : Rat) / (p.cycleCount : Rat)

/-- `core.Processor.GetPipelineState()`: delegates to `Pipeline.GetStages`. -/
def GetPipelineState (p : Core) : List Stage :=
  GetStages p.pipeline

/-- `core.Processor.Reset()`: zeroes pc, queue, the three counters, flushes the
pipeline, zeroes every register, clears every execution unit's busy flag. -/
def Reset (p : Core) : Core :=
  { p with pc := 0
           instructionQueue := []
           executedInstructions := 0
           cycleCount := 0
           busyCycles := 0
           pipeline := Flush p.pipeline
           registersInt := p.registersInt.map (fun _ => 0)
           registersFloat := p.registersFloat.map (fun _ => 0)
           executionUnits := p.executionUnits.map
             (fun kv => (kv.1, kv.2.map (fun u => { u with busy := false }))) }

/-- A register write `p.registersInt[i] = v` (as the repository's own tests
perform between cycles); out-of-range writes do not occur in the tests and are
no-ops here. -/
def writeIntReg (p : Core) (i : Nat) (v : Nat) : Core :=
  { p with registersInt := p.registersInt.set i v }

/-- A register write `p.registersFloat[i] = v`. -/
def writeFloatReg (p : Core) (i : Nat) (v : Int) : Core :=
  { p with registersFloat := p.registersFloat.set i v }

/-- The states a constructed core can be driven into by the public API:
any interleaving of `Cycle()` calls and direct register writes. -/
inductive Reachable (init : Core) : Core → Prop
  | refl : Reachable init init
  | cycle {c : Core} : Reachable init c → Reachable init (Cycle c)
  | writeInt {c : Core} (i : Nat) (v : Nat) :
      Reachable init c → Reachable init (writeIntReg c i v)
  | writeFloat {c : Core} (i : Nat) (v : Int) :
      Reachable init c → Reachable init (writeFloatReg c i v)

/-! ## internal/simulator -/

/-- `simulator.Statistics`.  The `float64` fields are modelled over `Rat`. -/
structure Statistics where
  totalCycles : Int
  instructionsExecuted : Int
  ipc : Rat
  cacheHitRate : Rat
  coreUtilization : List Rat
  memoryAccessLatency : Rat
  interconnectUtilization : Rat
deriving Repr, DecidableEq

/-- `simulator.simulator` run-level state (the stop channel and wait group are
concurrency plumbing with no effect on a normally-completing run). -/
structure Simulator where
  config : Config
  cores : List Core
  clock : Int
  running : Bool
  stats : Statistics
deriving Repr, DecidableEq

/-- The `for i, proc := range s.cores` loop of `calculateStatistics`: sums the
executed-instruction counts and writes each core's utilization at index `i`
of the utilization slice. -/
def statsLoop : List Core → Nat → Int → List Rat → Int × List Rat
  | [], _, total, util => (total, util)
  | c :: rest, i, total, util =>
    statsLoop rest (i + 1) (total + GetExecutedInstructions c)
      (util.set i (GetUtilization c))

/-- `simulator.calculateStatistics(cycles)`: sets total cycles to the request,
sums per-core executed instructions, records per-core utilization, and sets
IPC to total instructions / (cycles × core count) when `cycles > 0`. -/
def calculateStatistics (cycles : Int) (s : Simulator) : Simulator :=
  let r := statsLoop s.cores 0 0 s.stats.coreUtilization
  let stats₁ := { s.stats with totalCycles := cycles,
                               instructionsExecuted := r.1,
                               coreUtilization := r.2 }
  let stats₂ :=
    if cycles > 0 then
      { stats₁ with
        ipc := (r.1 : Rat) / ((cycles * (s.cores.length : Int) : Int) : Rat) }
    else stats₁
  { s with stats := stats₂ }

/-- `simulator.Run(cycles)`: rejects non-positive cycle counts and an already
running simulation; otherwise one worker per core calls `Cycle()` `cycles`
times.  A normally-completing run never observes the stop channel, and cores
share no mutable state, so the concurrent workers are equivalent to iterating
each core independently.  Afterwards statistics are recomputed wholesale. -/
def Run (cycles : Int) (s : Simulator) : GoRes Simulator :=
  if cycles ≤ 0 then .err "cycle count must be greater than 0"
  else if s.running then .err "simulation is already running"
  else
    let cores' := s.cores.map (fun c => Cycle^[cycles.toNat] c)
    .ok (calculateStatistics cycles { s with cores := cores', running := false })

/-! ## Observation predicates used by the theorems -/

/-- The identity of an in-flight instruction: every field except the mutable
remaining-cycles counter. -/
def Instruction.ident (i : Instruction) : Nat × Nat × List Nat × String :=
  (i.address, i.opcode, i.operands, i.type)

/-- The static (construction-time) part of a stage: its name and latency. -/
def Stage.static (st : Stage) : String × Int :=
  (st.name, st.latency)

/-- The occupancy invariant: a stage's `Busy` flag agrees with whether it holds
an instruction. -/
def Stage.busyOk (st : Stage) : Prop :=
  st.busy = st.instruction.isSome

/-- A well-formed pipeline: every stage satisfies the occupancy invariant. -/
def Pipeline.wfOcc (p : Pipeline) : Prop :=
  ∀ st ∈ p.stages, st.busyOk

/-- A freshly constructed stage: not busy, no instruction. -/
def clearStage (st : Stage) : Prop :=
  st.busy = false ∧ st.instruction = none

/-- The repository's `config.DefaultConfig()` (fields this core reads). -/
def defaultConfig : Config :=
  { numCores := 4, clockFrequency := 3000, isa := "RISC-V", pipelineDepth := 5,
    coherenceProtocol := "MESI", interconnectType := "ring" }

/-- Fallback core value for total extraction from a `GoRes` (never the result
of a successful construction). -/
def dummyCore : Core :=
  { id := 0, config := defaultConfig, pipeline := ⟨[]⟩, instructionQueue := [],
    executionUnits := [], registersInt := [], registersFloat := [], pc := 0,
    executedInstructions := 0, cycleCount := 0, busyCycles := 0 }

/-- The value of a successful `GoRes Core` (fallback: `dummyCore`). -/
def coreOf : GoRes Core → Core
  | .ok c => c
  | _ => dummyCore

/-- The core built by `NewProcessor 0` on the default configuration. -/
def rvCore0 : Core := coreOf (NewProcessor 0 (some defaultConfig))

/-- The zero `Statistics` record with a utilization slot per core, as
allocated by the simulator constructor. -/
def statsZero (n : Nat) : Statistics :=
  { totalCycles := 0, instructionsExecuted := 0, ipc := 0, cacheHitRate := 0,
    coreUtilization := List.replicate n 0, memoryAccessLatency := 0,
    interconnectUtilization := 0 }

/-- A single-core simulator over the default configuration (witness value). -/
def simRV : Simulator :=
  { config := { defaultConfig with numCores := 1 }, cores := [rvCore0],
    clock := 0, running := false, stats := statsZero 1 }

/-- The value of a successful `GoRes Simulator` (fallback: `simRV`). -/
def simOf : GoRes Simulator → Simulator
  | .ok s => s
  | _ => simRV

/-- The single-core simulator after a 5-cycle run (witness value). -/
def simRV5 : Simulator := simOf (Run 5 simRV)

/-! ## Pointer-level model of `GetStages` (for the snapshot claim)

In Go, `Pipeline.Stages` is `[]*Stage` and `Stage.Instruction` is
`*Instruction`.  `GetStages` copies each `Stage` struct (`stageCopy :=
*stage`), which copies the `Instruction` *pointer*, not the pointed-to
instruction.  To reason about that aliasing we give stages whose instruction
field is a reference (an index into an instruction heap), and observe a
pipeline by dereferencing. -/

namespace RefModel

/-- A stage as stored in Go: the instruction slot holds a heap reference. -/
structure StageR where
  name : String
  instruction : Option Nat
  busy : Bool
  latency : Int
deriving Repr, DecidableEq

/-- `GetStages` at the pointer level: a fresh slice of copied stage records;
the copy of a record carries the same instruction reference. -/
def getStagesR (stages : List StageR) : List StageR :=
  stages.map (fun st =>
    { name := st.name, instruction := st.instruction, busy := st.busy,
      latency := st.latency })

/-- `snapshot[j].Instruction.CyclesLeft = v`: a write through an instruction
reference mutates the heap. -/
def writeCyclesLeft (heap : List Instruction) (r : Nat) (v : Int) :
    List Instruction :=
  match heap[r]? with
  | some inst => heap.set r { inst with cyclesLeft := v }
  | none => heap

/-- The observable value of one stage: dereference its instruction pointer. -/
def observeStage (heap : List Instruction) (st : StageR) : Stage :=
  { name := st.name, busy := st.busy, latency := st.latency,
    instruction := st.instruction.bind (fun r => heap[r]?) }

/-- The live pipeline's observable state under a heap. -/
def observe (heap : List Instruction) (stages : List StageR) : List Stage :=
  stages.map (observeStage heap)

end RefModel

/-- Concrete two-stage pipeline for the stall claims: the upstream
instruction's counter has reached zero, the downstream stage is occupied by a
long-running instruction. -/
def instStalled : Instruction :=
  { address := 4096, opcode := 1, operands := [1, 2, 3], type := "Integer",
    cyclesLeft := 0 }

/-- The long-running downstream instruction of the stall scenario. -/
def instLong : Instruction :=
  { address := 8192, opcode := 2, operands := [4, 5, 6], type := "Integer",
    cyclesLeft := 5 }

/-- The stall-scenario pipeline: both stages occupied. -/
def stallPipe : Pipeline :=
  ⟨[{ name := "Decode", instruction := some instStalled, busy := true, latency := 1 },
    { name := "Execute", instruction := some instLong, busy := true, latency := 1 }]⟩

/-- The freshly built 5-stage RISC-V pipeline (used as a concrete witness). -/
def pipeRV : Pipeline :=
  ⟨[mkStage "Fetch" 1, mkStage "Decode" 1, mkStage "Execute" 1,
    mkStage "Memory" 1, mkStage "Writeback" 1]⟩

/-- Sanity: the classic 5-stage RISC-V topology, per the repository's tests. -/
theorem newPipeline_riscv5 :
    NewPipeline 5 "RISC-V" =
      .ok ⟨[mkStage "Fetch" 1, mkStage "Decode" 1, mkStage "Execute" 1,
            mkStage "Memory" 1, mkStage "Writeback" 1]⟩ := by decide

/-- Sanity: non-positive depth is rejected with the invalid-depth error. -/
theorem newPipeline_zero_err :
    NewPipeline 0 "x86" = .err "pipeline depth must be positive" := by decide

/-- Sanity: generic 7-stage topology (Issue at 2, Memory at 3, numbered 4). -/
theorem newPipeline_generic7 :
    stageNames (NewPipeline 7 "Custom") =
      some ["Fetch", "Decode", "Issue", "Memory", "Stage4", "Execute",
            "Writeback"] := by decide

/-- Sanity: deep x86 topology at depth 13, padded with extra stages. -/
theorem newPipeline_x86deep13 :
    stageNames (NewPipeline 13 "x86") =
      some ["Fetch1", "Fetch2", "Decode1", "Decode2", "Decode3", "Rename",
            "Schedule", "Dispatch", "Execute", "Memory", "Writeback",
            "ExtraStage1", "ExtraStage2"] := by decide

/-! # Lemmas about one pass of AdvanceStages -/

/-- Complete case analysis of `stepStage`: the head stage is skipped, keeps a
still-running instruction with a decremented counter, retires from the last
stage, stalls against a busy successor, or hands its instruction to a free
successor. -/
theorem stepStage_shape (st : Stage) (r : List Stage) :
    (stepStage st r = (st :: r, false) ∧ (st.busy = false ∨ st.instruction = none)) ∨
    (∃ inst, st.busy = true ∧ st.instruction = some inst ∧
      ((¬ inst.cyclesLeft - 1 ≤ 0 ∧
          stepStage st r =
            ({ st with instruction := some { inst with cyclesLeft := inst.cyclesLeft - 1 } } :: r,
             true)) ∨
       (inst.cyclesLeft - 1 ≤ 0 ∧ r = [] ∧
          stepStage st r = ([{ st with instruction := none, busy := false }], true)) ∨
       (∃ next tail, inst.cyclesLeft - 1 ≤ 0 ∧ r = next :: tail ∧ next.busy = true ∧
          stepStage st r =
            ({ st with instruction := some { inst with cyclesLeft := inst.cyclesLeft - 1 } }
              :: next :: tail, true)) ∨
       (∃ next tail, inst.cyclesLeft - 1 ≤ 0 ∧ r = next :: tail ∧ next.busy = false ∧
          stepStage st r =
            ({ st with instruction := none, busy := false } ::
              { next with busy := true,
                          instruction := some { inst with cyclesLeft := next.latency } } :: tail,
             true)))) := by
  cases hb : st.busy with
  | false =>
    left
    exact ⟨by simp [stepStage, hb], Or.inl rfl⟩
  | true =>
    cases hi : st.instruction with
    | none =>
      left
      exact ⟨by simp [stepStage, hb, hi], Or.inr rfl⟩
    | some inst =>
      right
      refine ⟨inst, rfl, rfl, ?_⟩
      by_cases hc : inst.cyclesLeft - 1 ≤ 0
      · cases r with
        | nil =>
          exact Or.inr (Or.inl ⟨hc, rfl, by simp [stepStage, hb, hi, hc]⟩)
        | cons next tail =>
          cases hnb : next.busy with
          | true =>
            exact Or.inr (Or.inr (Or.inl
              ⟨next, tail, hc, rfl, hnb, by simp [stepStage, hb, hi, hc, hnb]⟩))
          | false =>
            exact Or.inr (Or.inr (Or.inr
              ⟨next, tail, hc, rfl, hnb, by simp [stepStage, hb, hi, hc, hnb]⟩))
      · exact Or.inl ⟨hc, by simp [stepStage, hb, hi, hc]⟩

/-- `stepStage` produces the head stage followed by a list of the successor
stages' length. -/
theorem stepStage_length (st : Stage) (r : List Stage) :
    (stepStage st r).1.length = r.length + 1 := by
  rcases stepStage_shape st r with ⟨h, -⟩ | ⟨inst, -, -, h | h | h | h⟩
  · simp [h]
  · simp [h.2]
  · obtain ⟨-, hr, heq⟩ := h
    subst hr; simp [heq]
  · obtain ⟨next, tail, -, hr, -, heq⟩ := h
    subst hr; simp [heq]
  · obtain ⟨next, tail, -, hr, -, heq⟩ := h
    subst hr; simp [heq]

/-- `AdvanceStages` preserves the number of stages. -/
theorem advList_length (l : List Stage) : (advList l).1.length = l.length := by
  induction l with
  | nil => rfl
  | cons st rest ih =>
    show (stepStage st (advList rest).1).1.length = rest.length + 1
    rw [stepStage_length, ih]

/-- Stages at index ≥ 2 of a `stepStage` result are the corresponding
downstream stages, untouched: the head stage reads and writes only itself and
its immediate successor. -/
theorem stepStage_getElem?_ge2 (st : Stage) (r : List Stage) (j : Nat) :
    (stepStage st r).1[j + 2]? = r[j + 1]? := by
  rcases stepStage_shape st r with ⟨h, -⟩ | ⟨inst, -, -, h | h | h | h⟩
  · simp [h]
  · simp [h.2]
  · obtain ⟨-, hr, heq⟩ := h
    subst hr; simp [heq]
  · obtain ⟨next, tail, -, hr, -, heq⟩ := h
    subst hr; simp [heq]
  · obtain ⟨next, tail, -, hr, -, heq⟩ := h
    subst hr; simp [heq]

/-- If the first successor stage is busy, `stepStage` leaves it unchanged
(an instruction is never pushed into an occupied stage). -/
theorem stepStage_getElem?_one_busy (st : Stage) (r : List Stage) (next : Stage)
    (hr : r[0]? = some next) (hb : next.busy = true) :
    (stepStage st r).1[1]? = some next := by
  rcases stepStage_shape st r with ⟨h, -⟩ | ⟨inst, -, -, h | h | h | h⟩
  · simp [h, hr]
  · simp [h.2, hr]
  · rw [h.2.1] at hr; simp at hr
  · obtain ⟨next', tail, -, hrr, -, h⟩ := h
    rw [hrr] at hr; simp at hr
    simp [h, hr]
  · obtain ⟨next', tail, -, hrr, hnb, h⟩ := h
    rw [hrr] at hr; simp at hr
    rw [hr] at hnb; rw [hnb] at hb; exact absurd hb (by simp)

/-- A busy stage whose instruction still needs at least two more cycles keeps
its instruction across `AdvanceStages`, with the counter decremented by one:
it is not yet eligible to move, and nothing can be pushed into it. -/
theorem advList_hold (l : List Stage) (j : Nat) (st : Stage) (inst : Instruction)
    (hst : l[j]? = some st) (hb : st.busy = true) (hi : st.instruction = some inst)
    (hc : 2 ≤ inst.cyclesLeft) :
    (advList l).1[j]? =
      some { st with instruction := some { inst with cyclesLeft := inst.cyclesLeft - 1 } } := by
  induction l generalizing j with
  | nil => simp at hst
  | cons st₀ rest ih =>
    show (stepStage st₀ (advList rest).1).1[j]? = _
    cases j with
    | zero =>
      simp at hst
      subst hst
      rcases stepStage_shape st₀ (advList rest).1 with ⟨h, hSkip⟩ | ⟨inst', -, hi', h | h | h | h⟩
      · rcases hSkip with h' | h'
        · rw [h'] at hb; exact absurd hb (by simp)
        · rw [h'] at hi; simp at hi
      · rw [hi'] at hi
        injection hi with hinst
        subst hinst
        simp [h.2]
      · rw [hi'] at hi
        injection hi with hinst
        subst hinst
        omega
      · obtain ⟨next, tail, hcl, -, -, -⟩ := h
        rw [hi'] at hi
        injection hi with hinst
        subst hinst
        omega
      · obtain ⟨next, tail, hcl, -, -, -⟩ := h
        rw [hi'] at hi
        injection hi with hinst
        subst hinst
        omega
    | succ k =>
      simp only [List.getElem?_cons_succ] at hst
      have hr := ih k hst
      cases k with
      | zero =>
        refine stepStage_getElem?_one_busy _ _ _ hr ?_
        simp [hb]
      | succ k' =>
        rw [stepStage_getElem?_ge2]
        exact hr

/-- A stalled instruction: its counter has already reached zero but the
downstream stage is occupied by an instruction that itself still needs at
least two more cycles (so it cannot clear during this pass).  The upstream
instruction stays in its stage — same occupancy, same identity — with its
counter decremented by one more. -/
theorem advList_stall (l : List Stage) (j : Nat) (st next : Stage)
    (inst instN : Instruction)
    (hst : l[j]? = some st) (hb : st.busy = true) (hi : st.instruction = some inst)
    (hc : inst.cyclesLeft ≤ 0)
    (hnext : l[j + 1]? = some next) (hnb : next.busy = true)
    (hni : next.instruction = some instN) (hnc : 2 ≤ instN.cyclesLeft) :
    (advList l).1[j]? =
      some { st with instruction := some { inst with cyclesLeft := inst.cyclesLeft - 1 } } := by
  induction l generalizing j with
  | nil => simp at hst
  | cons st₀ rest ih =>
    show (stepStage st₀ (advList rest).1).1[j]? = _
    cases j with
    | zero =>
      simp only [List.getElem?_cons_zero, Option.some_inj] at hst
      subst hst
      simp only [List.getElem?_cons_succ] at hnext
      have hdown := advList_hold rest 0 next instN hnext hnb hni hnc
      rcases stepStage_shape st₀ (advList rest).1 with ⟨heq, hSkip⟩ |
        ⟨inst', -, hi', h | h | h | h⟩
      · rcases hSkip with h' | h'
        · rw [h'] at hb; exact absurd hb (by simp)
        · rw [h'] at hi; simp at hi
      · rw [hi'] at hi
        injection hi with hinst
        subst hinst
        exact absurd h.1 (by omega)
      · obtain ⟨-, hr, -⟩ := h
        rw [hr] at hdown; simp at hdown
      · obtain ⟨next'', tail, -, hr, -, heq⟩ := h
        rw [hi'] at hi
        injection hi with hinst
        subst hinst
        simp [heq]
      · obtain ⟨next'', tail, -, hr, hnb'', -⟩ := h
        rw [hr] at hdown
        simp only [List.getElem?_cons_zero, Option.some_inj] at hdown
        rw [hdown] at hnb''
        simp [hnb] at hnb''
    | succ k =>
      simp only [List.getElem?_cons_succ] at hst hnext
      have hr := ih k hst hnext
      cases k with
      | zero =>
        refine stepStage_getElem?_one_busy _ _ _ hr ?_
        simp [hb]
      | succ k' =>
        rw [stepStage_getElem?_ge2]
        exact hr

/-- A non-busy head stage is left unchanged by the pass: it is processed as a
skip, and no stage upstream of it exists to push an instruction into it. -/
theorem advList_head_notbusy (st : Stage) (rest : List Stage)
    (h : st.busy = false) :
    (advList (st :: rest)).1[0]? = some st := by
  show (stepStage st (advList rest).1).1[0]? = _
  rcases stepStage_shape st (advList rest).1 with ⟨heq, -⟩ |
    ⟨inst', hb', -, -⟩
  · simp [heq]
  · rw [h] at hb'; exact absurd hb' (by simp)

/-- The transfer of an instruction whose counter reaches zero into a free
downstream stage: the destination becomes busy and holds the same instruction
with its counter reset to the destination stage's own latency. -/
theorem advList_move_dest (l : List Stage) (j : Nat) (st next : Stage)
    (inst : Instruction)
    (hst : l[j]? = some st) (hb : st.busy = true) (hi : st.instruction = some inst)
    (hc : inst.cyclesLeft ≤ 1)
    (hnext : l[j + 1]? = some next) (hnb : next.busy = false) :
    (advList l).1[j + 1]? =
      some { next with busy := true,
                       instruction := some { inst with cyclesLeft := next.latency } } := by
  induction l generalizing j with
  | nil => simp at hst
  | cons st₀ rest ih =>
    show (stepStage st₀ (advList rest).1).1[j + 1]? = _
    cases j with
    | zero =>
      simp only [List.getElem?_cons_zero, Option.some_inj] at hst
      subst hst
      simp only [List.getElem?_cons_succ] at hnext
      cases rest with
      | nil => simp at hnext
      | cons rest₀ tail =>
        simp only [List.getElem?_cons_zero, Option.some_inj] at hnext
        subst hnext
        have hdown := advList_head_notbusy rest₀ tail hnb
        rcases stepStage_shape st₀ (advList (rest₀ :: tail)).1 with ⟨heq, hSkip⟩ |
          ⟨inst', -, hi', h | h | h | h⟩
        · rcases hSkip with h' | h'
          · rw [h'] at hb; exact absurd hb (by simp)
          · rw [h'] at hi; simp at hi
        · rw [hi'] at hi
          injection hi with hinst
          subst hinst
          exact absurd h.1 (by omega)
        · obtain ⟨-, hr, -⟩ := h
          rw [hr] at hdown; simp at hdown
        · obtain ⟨next'', tail', -, hr, hnb'', -⟩ := h
          rw [hr] at hdown
          simp only [List.getElem?_cons_zero, Option.some_inj] at hdown
          rw [hdown] at hnb''
          rw [hnb''] at hnb
          exact absurd hnb (by simp)
        · obtain ⟨next'', tail', -, hr, -, heq⟩ := h
          rw [hi'] at hi
          injection hi with hinst
          subst hinst
          rw [hr] at hdown
          simp only [List.getElem?_cons_zero, Option.some_inj] at hdown
          subst hdown
          simp [heq]
    | succ k =>
      simp only [List.getElem?_cons_succ] at hst hnext
      rw [stepStage_getElem?_ge2]
      exact ih k hst hnext

/-- `GetStages` returns (copies of) exactly the live stage records. -/
theorem GetStages_eq (p : Pipeline) : GetStages p = p.stages := by
  show p.stages.map (fun st => st) = p.stages
  simp

/-! # Claim C1: stalling behaviour -/

/-- **C1 counterexample.**  In `stallPipe` the stage-0 instruction's
remaining-cycles counter has reached zero and the next stage is occupied, yet
one `AdvanceStages` call decrements the counter further (to `-1`): the claim
that the counter "is not further decremented" is false. -/
theorem advance_stall_decrement_cex :
    (stallPipe.stages[0]?.bind Stage.instruction).map Instruction.cyclesLeft = some 0 ∧
    (stallPipe.stages[1]?).map Stage.busy = some true ∧
    ((AdvanceStages stallPipe).1.stages[0]?.bind Stage.instruction).map
        Instruction.cyclesLeft = some (-1) := by
  decide

/-- **C1 (amended).**  If an occupied stage's instruction has reached a
remaining-cycles counter ≤ 0, and the next stage is occupied by an instruction
that does not itself leave during this call (its counter is still ≥ 2), then
`AdvanceStages` leaves the instruction stalled in place — same stage, same
occupancy, same identity — but its remaining-cycles counter *is* decremented
by one more (it goes negative); since eligibility is the test
`CyclesLeft <= 0`, the extra decrements never delay its eventual advance, and
it stays pinned until the downstream stage clears. -/
theorem advance_stall_pinned (p : Pipeline) (j : Nat) (st next : Stage)
    (inst instN : Instruction)
    (hst : p.stages[j]? = some st) (hb : st.busy = true)
    (hi : st.instruction = some inst) (hc : inst.cyclesLeft ≤ 0)
    (hnext : p.stages[j + 1]? = some next) (hnb : next.busy = true)
    (hni : next.instruction = some instN) (hnc : 2 ≤ instN.cyclesLeft) :
    (AdvanceStages p).1.stages[j]? =
      some { st with instruction := some { inst with cyclesLeft := inst.cyclesLeft - 1 } } :=
  advList_stall p.stages j st next inst instN hst hb hi hc hnext hnb hni hnc

/-- Witness for `advance_stall_pinned` at the concrete stall pipeline. -/
theorem advance_stall_pinned_witness :
    instStalled.cyclesLeft ≤ 0 ∧ 2 ≤ instLong.cyclesLeft ∧
    (AdvanceStages stallPipe).1.stages[0]? =
      some { name := "Decode",
             instruction := some { instStalled with cyclesLeft := instStalled.cyclesLeft - 1 },
             busy := true, latency := 1 } :=
  ⟨by decide, by decide,
   advance_stall_pinned stallPipe 0 _ _ instStalled instLong rfl rfl rfl
     (by decide) rfl rfl rfl (by decide)⟩

/-! # Claim C7: InsertInstruction -/

/-- **C7.**  `InsertInstruction` succeeds iff stage 0 is unoccupied; on
success it occupies stage 0 with the instruction and sets its remaining
cycles to stage 0's latency, leaving all other stages untouched; on failure
it returns the boolean "not accepted" result and the pipeline is completely
unchanged. -/
theorem insertInstruction_spec (p : Pipeline) (inst : Instruction)
    (s0 : Stage) (rest : List Stage) (hp : p.stages = s0 :: rest) :
    ((InsertInstruction p inst).2 = true ↔ s0.busy = false) ∧
    (s0.busy = false →
      (InsertInstruction p inst).1 =
        ⟨({ s0 with
            busy := true,
            instruction := some { inst with cyclesLeft := s0.latency } } :: rest)⟩) ∧
    (s0.busy = true → InsertInstruction p inst = (p, false)) := by
  obtain ⟨stages⟩ := p
  simp only at hp
  subst hp
  cases hb : s0.busy <;> simp [InsertInstruction, hb]

/-- Witness for `insertInstruction_spec`: inserting into the fresh 5-stage
pipeline succeeds and fills stage 0. -/
theorem insertInstruction_spec_witness :
    (InsertInstruction pipeRV instLong).2 = true ∧
    (InsertInstruction pipeRV instLong).1 =
      ⟨({ (mkStage "Fetch" 1) with
          busy := true,
          instruction := some { instLong with cyclesLeft := (mkStage "Fetch" 1).latency } } ::
         [mkStage "Decode" 1, mkStage "Execute" 1, mkStage "Memory" 1,
          mkStage "Writeback" 1])⟩ :=
  ⟨(insertInstruction_spec pipeRV instLong (mkStage "Fetch" 1)
      [mkStage "Decode" 1, mkStage "Execute" 1, mkStage "Memory" 1,
       mkStage "Writeback" 1] rfl).1.mpr rfl,
   (insertInstruction_spec pipeRV instLong (mkStage "Fetch" 1)
      [mkStage "Decode" 1, mkStage "Execute" 1, mkStage "Memory" 1,
       mkStage "Writeback" 1] rfl).2.1 rfl⟩

/-! # Claim C2: single pass, at most one stage of movement -/

/-- The head of a `stepStage` result can only hold an instruction that was in
the head stage before (identity preserved, counter possibly updated). -/
theorem stepStage_src_zero (st : Stage) (r : List Stage) (st' : Stage)
    (a : Instruction) (h : (stepStage st r).1[0]? = some st')
    (ha : st'.instruction = some a) :
    ∃ b, st.instruction = some b ∧ b.ident = a.ident := by
  rcases stepStage_shape st r with ⟨heq, -⟩ | ⟨inst, -, hi, hcase | hcase | hcase | hcase⟩
  · rw [heq] at h
    simp only [List.getElem?_cons_zero, Option.some_inj] at h
    subst h
    exact ⟨a, ha, rfl⟩
  · rw [hcase.2] at h
    simp only [List.getElem?_cons_zero, Option.some_inj] at h
    subst h
    simp only at ha
    injection ha with ha
    exact ⟨inst, hi, by subst ha; rfl⟩
  · obtain ⟨-, -, heq⟩ := hcase
    rw [heq] at h
    simp only [List.getElem?_cons_zero, Option.some_inj] at h
    subst h
    simp at ha
  · obtain ⟨next, tail, -, -, -, heq⟩ := hcase
    rw [heq] at h
    simp only [List.getElem?_cons_zero, Option.some_inj] at h
    subst h
    simp only at ha
    injection ha with ha
    exact ⟨inst, hi, by subst ha; rfl⟩
  · obtain ⟨next, tail, -, -, -, heq⟩ := hcase
    rw [heq] at h
    simp only [List.getElem?_cons_zero, Option.some_inj] at h
    subst h
    simp at ha

/-- Position 1 of a `stepStage` result is either the already-processed first
successor unchanged, or (after a hand-off) holds the instruction that came
from the head stage. -/
theorem stepStage_src_one (st : Stage) (r : List Stage) (st' : Stage)
    (a : Instruction) (h : (stepStage st r).1[1]? = some st')
    (ha : st'.instruction = some a) :
    r[0]? = some st' ∨ ∃ b, st.instruction = some b ∧ b.ident = a.ident := by
  rcases stepStage_shape st r with ⟨heq, -⟩ | ⟨inst, -, hi, hcase | hcase | hcase | hcase⟩
  · rw [heq] at h
    simp only [List.getElem?_cons_succ] at h
    exact Or.inl h
  · rw [hcase.2] at h
    simp only [List.getElem?_cons_succ] at h
    exact Or.inl h
  · obtain ⟨-, -, heq⟩ := hcase
    rw [heq] at h
    simp at h
  · obtain ⟨next, tail, -, hr, -, heq⟩ := hcase
    rw [heq] at h
    simp only [List.getElem?_cons_succ] at h
    rw [hr]
    exact Or.inl h
  · obtain ⟨next, tail, -, hr, -, heq⟩ := hcase
    rw [heq] at h
    simp only [List.getElem?_cons_succ, List.getElem?_cons_zero, Option.some_inj] at h
    subst h
    simp only at ha
    injection ha with ha
    exact Or.inr ⟨inst, hi, by subst ha; rfl⟩

/-- Across one pass, the instruction found at stage `j` afterwards was at
stage `j` or stage `j-1` before (same identity — it moved at most one stage
forward and never jumped over another). -/
theorem advList_src (l : List Stage) (j : Nat) (st' : Stage) (a : Instruction)
    (h : (advList l).1[j]? = some st') (ha : st'.instruction = some a) :
    (∃ st b, l[j]? = some st ∧ st.instruction = some b ∧ b.ident = a.ident) ∨
    (∃ j' st b, j = j' + 1 ∧ l[j']? = some st ∧ st.instruction = some b ∧
      b.ident = a.ident) := by
  induction l generalizing j st' a with
  | nil => simp [advList] at h
  | cons st₀ rest ih =>
    have h' : (stepStage st₀ (advList rest).1).1[j]? = some st' := h
    cases j with
    | zero =>
      obtain ⟨b, hb, hident⟩ := stepStage_src_zero st₀ (advList rest).1 st' a h' ha
      exact Or.inl ⟨st₀, b, by simp, hb, hident⟩
    | succ k =>
      cases k with
      | zero =>
        rcases stepStage_src_one st₀ (advList rest).1 st' a h' ha with hr | ⟨b, hb, hident⟩
        · rcases ih 0 st' a hr ha with ⟨st, b, h1, h2, h3⟩ | ⟨j', -, -, hj, -⟩
          · exact Or.inl ⟨st, b, by simpa using h1, h2, h3⟩
          · exact absurd hj (by omega)
        · exact Or.inr ⟨0, st₀, b, rfl, by simp, hb, hident⟩
      | succ k' =>
        rw [stepStage_getElem?_ge2] at h'
        rcases ih (k' + 1) st' a h' ha with ⟨st, b, h1, h2, h3⟩ |
          ⟨j', st, b, hj, h1, h2⟩
        · exact Or.inl ⟨st, b, by simpa using h1, h2, h3⟩
        · obtain ⟨h2a, h2b⟩ := h2
          refine Or.inr ⟨j' + 1, st, b, by omega, by simpa using h1, h2a, h2b⟩

/-- **C2.**  One `AdvanceStages` call moves every instruction at most one
stage: whatever instruction sits at stage `j` after the call was at stage `j`
or stage `j-1` before it (same identity, counter possibly updated) — no
instruction's stage index increases by more than one, and no instruction
overtakes one advanced earlier in the same tail-to-head pass. -/
theorem advance_moves_at_most_one (p : Pipeline) (j : Nat) (st' : Stage)
    (a : Instruction) (h : (AdvanceStages p).1.stages[j]? = some st')
    (ha : st'.instruction = some a) :
    (∃ st b, p.stages[j]? = some st ∧ st.instruction = some b ∧ b.ident = a.ident) ∨
    (∃ j' st b, j = j' + 1 ∧ p.stages[j']? = some st ∧ st.instruction = some b ∧
      b.ident = a.ident) :=
  advList_src p.stages j st' a h ha

/-- Witness for `advance_moves_at_most_one`: the downstream instruction of
the stall pipeline is found at stage 1 after the pass, and indeed came from
stage 1 or stage 0. -/
theorem advance_moves_at_most_one_witness :
    (∃ st b, stallPipe.stages[1]? = some st ∧ st.instruction = some b ∧
        b.ident = ({ instLong with cyclesLeft := 4 } : Instruction).ident) ∨
    (∃ j' st b, 1 = j' + 1 ∧ stallPipe.stages[j']? = some st ∧
        st.instruction = some b ∧
        b.ident = ({ instLong with cyclesLeft := 4 } : Instruction).ident) :=
  advance_moves_at_most_one stallPipe 1
    { name := "Execute", instruction := some { instLong with cyclesLeft := 4 },
      busy := true, latency := 1 }
    { instLong with cyclesLeft := 4 } (by decide) rfl

/-! # Claim C10: the Busy flag always agrees with the instruction slot -/

/-- A Go `stages[i] = s` that returned normally preserves "all stages clear"
when the written stage is clear. -/
theorem setStage_clear {l l' : List Stage} {i : Nat} {s : Stage}
    (h : setStage l i s = .ok l') (hl : ∀ x ∈ l, clearStage x)
    (hs : clearStage s) : ∀ x ∈ l', clearStage x := by
  unfold setStage at h
  split at h
  · injection h with h
    subst h
    intro x hx
    rcases List.mem_or_eq_of_mem_set hx with hx | rfl
    · exact hl x hx
    · exact hs
  · exact absurd h (by simp)

/-- `List.set` with a clear stage preserves "all stages clear". -/
theorem clearStage_set {l : List Stage} {i : Nat} {s : Stage}
    (hl : ∀ x ∈ l, clearStage x) (hs : clearStage s) :
    ∀ x ∈ l.set i s, clearStage x := fun x hx =>
  (List.mem_or_eq_of_mem_set hx).elim (hl x) (fun e => e ▸ hs)

/-- Every stage built by `mkStage` is clear. -/
theorem clearStage_mkStage (n : String) (lat : Int) : clearStage (mkStage n lat) :=
  ⟨rfl, rfl⟩

/-- The freshly allocated stage slice is all-clear. -/
theorem clearStage_replicate (d : Nat) :
    ∀ x ∈ List.replicate d nilStage, clearStage x := by
  intro x hx
  rw [List.eq_of_mem_replicate hx]
  exact ⟨rfl, rfl⟩

/-- The `ExtraStage` fill loop preserves "all stages clear". -/
theorem fillExtraAux_clear (k : Nat) :
    ∀ (i : Nat) (l : List Stage), (∀ x ∈ l, clearStage x) →
      ∀ x ∈ fillExtraAux k i l, clearStage x := by
  induction k with
  | zero => intro i l hl; exact hl
  | succ k ih =>
    intro i l hl
    exact ih _ _ (clearStage_set hl (clearStage_mkStage _ _))

/-- The generic-topology fill loop preserves "all stages clear". -/
theorem fillMiddleAux_clear (d k : Nat) :
    ∀ (i : Nat) (l : List Stage), (∀ x ∈ l, clearStage x) →
      ∀ x ∈ fillMiddleAux d k i l, clearStage x := by
  induction k with
  | zero => intro i l hl; exact hl
  | succ k ih =>
    intro i l hl
    exact ih _ _ (clearStage_set hl (clearStage_mkStage _ _))

/-- The deep x86 base topology is all-clear. -/
theorem x86DeepBase_clear (d : Nat) : ∀ x ∈ x86DeepBase d, clearStage x := by
  unfold x86DeepBase
  repeat
    apply clearStage_set _ (clearStage_mkStage _ _)
  exact clearStage_replicate d

/-- Every successfully constructed pipeline starts with all stages clear
(not busy, no instruction). -/
theorem NewPipeline_clear {depth : Int} {isa : String} {p : Pipeline}
    (h : NewPipeline depth isa = .ok p) : ∀ st ∈ p.stages, clearStage st := by
  unfold NewPipeline at h
  split at h
  · exact absurd h (by simp)
  · split at h
    · injection h with h
      subst h
      intro st hst
      fin_cases hst <;> exact clearStage_mkStage _ _
    · split at h
      · injection h with h
        subst h
        intro st hst
        fin_cases hst <;> exact clearStage_mkStage _ _
      · split at h
        · injection h with h
          subst h
          exact fillExtraAux_clear _ _ _ (x86DeepBase_clear _)
        · split at h
          · rename_i l₁ heq₁
            split at h
            · rename_i l₂ heq₂
              split at h
              · split at h
                · rename_i l₃ heq₃
                  injection h with h
                  subst h
                  exact setStage_clear heq₃
                    (setStage_clear heq₂
                      (setStage_clear heq₁ (clearStage_replicate _)
                        (clearStage_mkStage _ _))
                      (clearStage_mkStage _ _))
                    (clearStage_mkStage _ _)
                · exact absurd h (by simp)
              · split at h
                · rename_i l₃ heq₃
                  split at h
                  · rename_i l₄ heq₄
                    injection h with h
                    subst h
                    exact fillMiddleAux_clear _ _ _ _
                      (setStage_clear heq₄
                        (setStage_clear heq₃
                          (setStage_clear heq₂
                            (setStage_clear heq₁ (clearStage_replicate _)
                              (clearStage_mkStage _ _))
                            (clearStage_mkStage _ _))
                          (clearStage_mkStage _ _))
                        (clearStage_mkStage _ _))
                  · exact absurd h (by simp)
                · exact absurd h (by simp)
            · exact absurd h (by simp)
          · exact absurd h (by simp)

/-- `stepStage` preserves the occupancy invariant stage-wise: every stage it
writes has its Busy flag and instruction slot set (or cleared) together. -/
theorem stepStage_busyOk (st : Stage) (r : List Stage)
    (hst : st.busyOk) (hr : ∀ x ∈ r, x.busyOk) :
    ∀ x ∈ (stepStage st r).1, x.busyOk := by
  rcases stepStage_shape st r with ⟨heq, -⟩ | ⟨inst, hb, hi, hcase | hcase | hcase | hcase⟩
  · rw [heq]
    intro x hx
    rcases List.mem_cons.mp hx with rfl | hx
    · exact hst
    · exact hr x hx
  · rw [hcase.2]
    intro x hx
    rcases List.mem_cons.mp hx with rfl | hx
    · simp [Stage.busyOk, hb]
    · exact hr x hx
  · obtain ⟨-, -, heq⟩ := hcase
    rw [heq]
    intro x hx
    rcases List.mem_cons.mp hx with rfl | hx
    · simp [Stage.busyOk]
    · simp at hx
  · obtain ⟨next, tail, -, hrq, -, heq⟩ := hcase
    rw [heq]
    intro x hx
    rcases List.mem_cons.mp hx with rfl | hx
    · simp [Stage.busyOk, hb]
    · exact hr x (hrq ▸ hx)
  · obtain ⟨next, tail, -, hrq, -, heq⟩ := hcase
    rw [heq]
    intro x hx
    rcases List.mem_cons.mp hx with rfl | hx
    · simp [Stage.busyOk]
    · rcases List.mem_cons.mp hx with rfl | hx
      · simp [Stage.busyOk]
      · exact hr x (by rw [hrq]; exact List.mem_cons_of_mem _ hx)

/-- One pass preserves the occupancy invariant. -/
theorem advList_busyOk (l : List Stage) (hl : ∀ x ∈ l, x.busyOk) :
    ∀ x ∈ (advList l).1, x.busyOk := by
  induction l with
  | nil => intro x hx; simp [advList] at hx
  | cons st rest ih =>
    exact stepStage_busyOk st (advList rest).1
      (hl st (by simp))
      (ih (fun x hx => hl x (List.mem_cons_of_mem _ hx)))

/-- **C10.**  The invariant "a stage's Busy flag is true iff its instruction
slot is non-nil" holds for every freshly constructed pipeline and is preserved
by `InsertInstruction`, `AdvanceStages` and `Flush`, so the Busy-flag reads of
`IsEmpty`/`IsFull` never disagree with the stored instruction references. -/
theorem busy_iff_instruction_invariant :
    (∀ (depth : Int) (isa : String) (p : Pipeline),
        NewPipeline depth isa = .ok p → p.wfOcc) ∧
    (∀ (p : Pipeline) (inst : Instruction), p.wfOcc →
        (InsertInstruction p inst).1.wfOcc) ∧
    (∀ p : Pipeline, p.wfOcc → (AdvanceStages p).1.wfOcc) ∧
    (∀ p : Pipeline, (Flush p).wfOcc) := by
  refine ⟨?_, ?_, ?_, ?_⟩
  · intro depth isa p h st hst
    obtain ⟨h1, h2⟩ := NewPipeline_clear h st hst
    simp [Stage.busyOk, h1, h2]
  · intro p inst hwf
    unfold InsertInstruction
    split
    · exact hwf
    · rename_i s0 rest heq
      split
      · exact hwf
      · intro st hst
        rcases List.mem_cons.mp hst with rfl | hst
        · simp [Stage.busyOk]
        · exact hwf st (by rw [heq]; exact List.mem_cons_of_mem _ hst)
  · intro p hwf st hst
    exact advList_busyOk p.stages hwf st hst
  · intro p st hst
    unfold Flush at hst
    simp only [List.mem_map] at hst
    obtain ⟨y, -, rfl⟩ := hst
    simp [Stage.busyOk]

/-- Witness for `busy_iff_instruction_invariant`: the invariant carried from
construction through an insert and an advance on the 5-stage pipeline. -/
theorem busy_iff_instruction_invariant_witness :
    (AdvanceStages (InsertInstruction pipeRV instLong).1).1.wfOcc :=
  busy_iff_instruction_invariant.2.2.1 _
    (busy_iff_instruction_invariant.2.1 _ _
      (busy_iff_instruction_invariant.1 5 "RISC-V" pipeRV (by decide)))

/-! # Claim C6: latency counters and eligibility -/

/-- When the head stage's instruction reaches zero and the (already processed)
next stage is free, the head stage empties: nothing upstream of the head
exists to refill it within the pass. -/
theorem advList_head_move (st next : Stage) (rest : List Stage)
    (inst : Instruction) (hb : st.busy = true) (hi : st.instruction = some inst)
    (hc : inst.cyclesLeft ≤ 1) (hnb : next.busy = false) :
    (advList (st :: next :: rest)).1[0]? =
      some { st with instruction := none, busy := false } := by
  show (stepStage st (advList (next :: rest)).1).1[0]? = _
  have hdown := advList_head_notbusy next rest hnb
  rcases stepStage_shape st (advList (next :: rest)).1 with ⟨heq, hSkip⟩ |
    ⟨inst', -, hi', h | h | h | h⟩
  · rcases hSkip with h' | h'
    · rw [h'] at hb; exact absurd hb (by simp)
    · rw [h'] at hi; simp at hi
  · rw [hi'] at hi
    injection hi with hinst
    subst hinst
    exact absurd h.1 (by omega)
  · obtain ⟨-, hr, heq⟩ := h
    rw [hr] at hdown; simp at hdown
  · obtain ⟨next'', tail', -, hr, hnb'', -⟩ := h
    rw [hr] at hdown
    simp only [List.getElem?_cons_zero, Option.some_inj] at hdown
    rw [hdown] at hnb''
    rw [hnb''] at hnb
    exact absurd hnb (by simp)
  · obtain ⟨next'', tail', -, hr, -, heq⟩ := h
    simp [heq]

/-- **C6.**  An instruction occupies a stage for exactly that stage's latency
in `AdvanceStages` calls before becoming eligible to move (absent downstream
stalls): (a) while its counter is still ≥ 2 it stays put, the counter
decrementing by one per call; (b) `InsertInstruction` resets the counter to
stage 0's latency on entry; (c) a hand-off resets the counter to the
destination stage's own latency; (d) in particular, after inserting into a
free latency-1 stage 0 with stage 1 free, a single `AdvanceStages` call moves
the instruction from stage 0 to stage 1. -/
theorem stage_latency_occupancy :
    (∀ (p : Pipeline) (j : Nat) (st : Stage) (inst : Instruction),
        p.stages[j]? = some st → st.busy = true → st.instruction = some inst →
        2 ≤ inst.cyclesLeft →
        (AdvanceStages p).1.stages[j]? =
          some { st with
                 instruction := some { inst with cyclesLeft := inst.cyclesLeft - 1 } }) ∧
    (∀ (p : Pipeline) (inst : Instruction) (s0 : Stage) (rest : List Stage),
        p.stages = s0 :: rest → s0.busy = false →
        (InsertInstruction p inst).1.stages[0]? =
          some { s0 with
                 busy := true,
                 instruction := some { inst with cyclesLeft := s0.latency } }) ∧
    (∀ (p : Pipeline) (j : Nat) (st next : Stage) (inst : Instruction),
        p.stages[j]? = some st → st.busy = true → st.instruction = some inst →
        inst.cyclesLeft ≤ 1 → p.stages[j + 1]? = some next → next.busy = false →
        (AdvanceStages p).1.stages[j + 1]? =
          some { next with
                 busy := true,
                 instruction := some { inst with cyclesLeft := next.latency } }) ∧
    (∀ (p : Pipeline) (inst : Instruction) (s0 s1 : Stage) (rest : List Stage),
        p.stages = s0 :: s1 :: rest → s0.busy = false → s0.latency = 1 →
        s1.busy = false →
        (AdvanceStages (InsertInstruction p inst).1).1.stages[0]? =
            some { s0 with instruction := none, busy := false } ∧
        (AdvanceStages (InsertInstruction p inst).1).1.stages[1]? =
            some { s1 with
                   busy := true,
                   instruction := some { inst with cyclesLeft := s1.latency } }) := by
  refine ⟨?_, ?_, ?_, ?_⟩
  · intro p j st inst hst hb hi hc
    exact advList_hold p.stages j st inst hst hb hi hc
  · intro p inst s0 rest hp hb
    obtain ⟨stages⟩ := p
    simp only at hp
    subst hp
    simp [InsertInstruction, hb]
  · intro p j st next inst hst hb hi hc hnext hnb
    exact advList_move_dest p.stages j st next inst hst hb hi hc hnext hnb
  · intro p inst s0 s1 rest hp hb hlat hnb
    obtain ⟨stages⟩ := p
    simp only at hp
    subst hp
    have hq : (InsertInstruction ⟨s0 :: s1 :: rest⟩ inst).1.stages =
        { s0 with
          busy := true,
          instruction := some { inst with cyclesLeft := s0.latency } } :: s1 :: rest := by
      simp [InsertInstruction, hb]
    constructor
    · show (advList (InsertInstruction ⟨s0 :: s1 :: rest⟩ inst).1.stages).1[0]? = _
      rw [hq]
      have := advList_head_move
        { s0 with
          busy := true,
          instruction := some { inst with cyclesLeft := s0.latency } }
        s1 rest { inst with cyclesLeft := s0.latency } rfl rfl (by rw [hlat]) hnb
      simpa using this
    · show (advList (InsertInstruction ⟨s0 :: s1 :: rest⟩ inst).1.stages).1[1]? = _
      rw [hq]
      have := advList_move_dest
        ({ s0 with
           busy := true,
           instruction := some { inst with cyclesLeft := s0.latency } } :: s1 :: rest)
        0
        { s0 with
          busy := true,
          instruction := some { inst with cyclesLeft := s0.latency } }
        s1 { inst with cyclesLeft := s0.latency } (by simp) rfl rfl (by rw [hlat])
        (by simp) hnb
      simpa using this

/-- Witness for `stage_latency_occupancy`: all four parts at concrete
pipelines (the stall pipeline for (a); the fresh 5-stage pipeline with a
synthetic instruction for (b), (c) and (d)). -/
theorem stage_latency_occupancy_witness :
    ((AdvanceStages stallPipe).1.stages[1]? =
      some { name := "Execute",
             instruction := some { instLong with cyclesLeft := instLong.cyclesLeft - 1 },
             busy := true, latency := 1 }) ∧
    ((InsertInstruction pipeRV instLong).1.stages[0]? =
      some { (mkStage "Fetch" 1) with
             busy := true,
             instruction := some { instLong with cyclesLeft := (mkStage "Fetch" 1).latency } }) ∧
    ((AdvanceStages (InsertInstruction pipeRV instLong).1).1.stages[1]? =
      some { (mkStage "Decode" 1) with
             busy := true,
             instruction := some { { instLong with cyclesLeft := (1 : Int) } with
                                   cyclesLeft := (mkStage "Decode" 1).latency } }) ∧
    ((AdvanceStages (InsertInstruction pipeRV instLong).1).1.stages[0]? =
      some { (mkStage "Fetch" 1) with instruction := none, busy := false }) :=
  ⟨stage_latency_occupancy.1 stallPipe 1
      { name := "Execute", instruction := some instLong, busy := true, latency := 1 }
      instLong (by decide) rfl rfl (by decide),
   stage_latency_occupancy.2.1 pipeRV instLong (mkStage "Fetch" 1)
      [mkStage "Decode" 1, mkStage "Execute" 1, mkStage "Memory" 1,
       mkStage "Writeback" 1] rfl rfl,
   stage_latency_occupancy.2.2.1 (InsertInstruction pipeRV instLong).1 0
      { (mkStage "Fetch" 1) with
        busy := true, instruction := some { instLong with cyclesLeft := (1 : Int) } }
      (mkStage "Decode" 1) { instLong with cyclesLeft := (1 : Int) }
      (by decide) rfl rfl (by decide) (by decide) rfl,
   (stage_latency_occupancy.2.2.2 pipeRV instLong (mkStage "Fetch" 1)
      (mkStage "Decode" 1)
      [mkStage "Execute" 1, mkStage "Memory" 1, mkStage "Writeback" 1]
      rfl rfl rfl rfl).1⟩

/-! # Claim C5: retirement counting in Cycle -/

/-- The retirement test succeeds exactly when the final stage exists and is
unoccupied. -/
theorem lastStageFree_iff (stages : List Stage) :
    lastStageFree stages = true ↔
      ∃ st, stages.getLast? = some st ∧ st.busy = false := by
  unfold lastStageFree
  cases h : stages.getLast? with
  | none => simp
  | some st => cases hb : st.busy <;> simp [hb]

/-- The retirement test fails exactly when there is no final stage or it is
occupied. -/
theorem lastStageFree_eq_false_iff (stages : List Stage) :
    lastStageFree stages = false ↔
      ∀ st, stages.getLast? = some st → st.busy = true := by
  unfold lastStageFree
  cases h : stages.getLast? with
  | none => simp
  | some st => cases hb : st.busy <;> simp [hb]

/-- **C5.**  One `Cycle()` call increments the cycle counter by one, and
increments the executed-instruction counter by exactly one iff, after the
pipeline has advanced and any fetch-insert has happened in that same call
(i.e. in the resulting pipeline), the final stage is unoccupied and the
incremented cycle counter is a multiple of the fetch interval 5; in every
other case the executed-instruction counter is unchanged. -/
theorem cycle_executed_increment_iff (c : Core) :
    (Cycle c).cycleCount = c.cycleCount + 1 ∧
    ((Cycle c).executedInstructions = c.executedInstructions + 1 ∨
      (Cycle c).executedInstructions = c.executedInstructions) ∧
    ((Cycle c).executedInstructions = c.executedInstructions + 1 ↔
      (∃ st, (Cycle c).pipeline.stages.getLast? = some st ∧ st.busy = false) ∧
        Int.tmod (c.cycleCount + 1) 5 = 0) := by
  unfold Cycle
  simp only [GetStages_eq]
  split <;> split <;> split <;>
    simp_all [fetchNextInstruction, lastStageFree_iff, lastStageFree_eq_false_iff]

/-! # Claim C4: GetStages snapshots and the shared instruction pointer -/

/-- **C4 counterexample.**  `GetStages` copies the stage records but copies
the `Instruction` *pointer* inside them; at a concrete one-stage pipeline the
snapshot exposes the same instruction reference, and a write to the exposed
instruction's `CyclesLeft` changes the live pipeline's observable state —
the claim that mutating the snapshot (including its instruction) never
affects the live pipeline is false. -/
theorem getStages_snapshot_cex :
    ((RefModel.getStagesR
        [{ name := "Fetch", instruction := some 0, busy := true, latency := 1 }])[0]?).map
      RefModel.StageR.instruction = some (some 0) ∧
    RefModel.observe (RefModel.writeCyclesLeft [instStalled] 0 99)
        [{ name := "Fetch", instruction := some 0, busy := true, latency := 1 }] ≠
      RefModel.observe [instStalled]
        [{ name := "Fetch", instruction := some 0, busy := true, latency := 1 }] := by
  decide

/-- **C4 (amended).**  `GetStages` returns a fresh slice of copied stage
records: the snapshot observes identically to the live stages, so edits to
the returned slice or to the copied records themselves never reach the live
pipeline.  But each copy carries the *same* instruction reference as the live
stage, so a write through the exposed instruction (e.g. to its `CyclesLeft`)
is visible in the live pipeline's observable state. -/
theorem getStages_snapshot_amended (heap : List Instruction)
    (stages : List RefModel.StageR) (j r : Nat) (st : RefModel.StageR)
    (inst : Instruction) (v : Int)
    (hst : stages[j]? = some st) (hr : st.instruction = some r)
    (hinst : heap[r]? = some inst) :
    RefModel.observe heap (RefModel.getStagesR stages) =
        RefModel.observe heap stages ∧
    (RefModel.getStagesR stages)[j]? = some st ∧
    (RefModel.observe (RefModel.writeCyclesLeft heap r v) stages)[j]? =
      some { name := st.name, busy := st.busy, latency := st.latency,
             instruction := some { inst with cyclesLeft := v } } := by
  refine ⟨?_, ?_, ?_⟩
  · show (stages.map (fun st => st)).map (RefModel.observeStage heap) = _
    simp [RefModel.observe]
  · show (stages.map (fun st => st))[j]? = some st
    simp [hst]
  · have hlen : r < heap.length := by
      by_contra hge
      rw [List.getElem?_eq_none (by omega)] at hinst
      exact Option.noConfusion hinst
    unfold RefModel.observe
    rw [List.getElem?_map, hst]
    unfold RefModel.writeCyclesLeft RefModel.observeStage
    rw [hinst]
    simp [hr, List.getElem?_set_self hlen]

/-- Witness for `getStages_snapshot_amended` at the one-stage pipeline. -/
theorem getStages_snapshot_amended_witness :
    RefModel.observe [instStalled]
        (RefModel.getStagesR
          [{ name := "Fetch", instruction := some 0, busy := true, latency := 1 }]) =
      RefModel.observe [instStalled]
        [{ name := "Fetch", instruction := some 0, busy := true, latency := 1 }] ∧
    (RefModel.getStagesR
        [{ name := "Fetch", instruction := some 0, busy := true, latency := 1 }])[0]? =
      some { name := "Fetch", instruction := some 0, busy := true, latency := 1 } ∧
    (RefModel.observe (RefModel.writeCyclesLeft [instStalled] 0 99)
        [{ name := "Fetch", instruction := some 0, busy := true, latency := 1 }])[0]? =
      some { name := "Fetch", busy := true, latency := 1,
             instruction := some { instStalled with cyclesLeft := 99 } } :=
  getStages_snapshot_amended [instStalled]
    [{ name := "Fetch", instruction := some 0, busy := true, latency := 1 }]
    0 0 { name := "Fetch", instruction := some 0, busy := true, latency := 1 }
    instStalled 99 rfl rfl rfl

/-! # Claim C8: Reset restores the freshly constructed state -/

/-- `stepStage` never changes a stage's name or latency. -/
theorem stepStage_static (st : Stage) (r : List Stage) :
    (stepStage st r).1.map Stage.static = st.static :: r.map Stage.static := by
  rcases stepStage_shape st r with ⟨heq, -⟩ | ⟨inst, -, -, h | h | h | h⟩
  · simp [heq]
  · simp [h.2, Stage.static]
  · obtain ⟨-, hr, heq⟩ := h
    subst hr
    simp [heq, Stage.static]
  · obtain ⟨next, tail, -, hr, -, heq⟩ := h
    subst hr
    simp [heq, Stage.static]
  · obtain ⟨next, tail, -, hr, -, heq⟩ := h
    subst hr
    simp [heq, Stage.static]

/-- One pass never changes any stage's name or latency. -/
theorem advList_static (l : List Stage) :
    (advList l).1.map Stage.static = l.map Stage.static := by
  induction l with
  | nil => rfl
  | cons st rest ih =>
    show (stepStage st (advList rest).1).1.map Stage.static = _
    rw [stepStage_static, ih]
    rfl

/-- `AdvanceStages` preserves the pipeline topology (names and latencies). -/
theorem advance_static (p : Pipeline) :
    (AdvanceStages p).1.stages.map Stage.static = p.stages.map Stage.static :=
  advList_static p.stages

/-- `InsertInstruction` preserves the pipeline topology. -/
theorem insert_static (p : Pipeline) (inst : Instruction) :
    (InsertInstruction p inst).1.stages.map Stage.static =
      p.stages.map Stage.static := by
  unfold InsertInstruction
  split
  · rfl
  · rename_i s0 rest heq
    split
    · rfl
    · simp [heq, Stage.static]

/-- `Flush` depends only on the pipeline topology. -/
theorem Flush_congr {p q : Pipeline}
    (h : p.stages.map Stage.static = q.stages.map Stage.static) :
    Flush p = Flush q := by
  obtain ⟨l₁⟩ := p
  obtain ⟨l₂⟩ := q
  simp only at h
  unfold Flush
  simp only [Pipeline.mk.injEq]
  induction l₁ generalizing l₂ with
  | nil =>
    cases l₂ with
    | nil => rfl
    | cons b t => simp at h
  | cons a t ih =>
    cases l₂ with
    | nil => simp at h
    | cons b u =>
      simp only [List.map_cons, List.cons.injEq] at h ⊢
      obtain ⟨h1, h2⟩ := h
      refine ⟨?_, ih u h2⟩
      obtain ⟨hn, hl⟩ := Prod.mk.injEq .. ▸ h1
      cases a
      cases b
      simp_all [Stage.static]

/-- Flushing an all-clear pipeline is the identity. -/
theorem Flush_of_clear {p : Pipeline} (h : ∀ st ∈ p.stages, clearStage st) :
    Flush p = p := by
  obtain ⟨l⟩ := p
  unfold Flush
  simp only [Pipeline.mk.injEq]
  induction l with
  | nil => rfl
  | cons a t ih =>
    simp only [List.map_cons, List.cons.injEq]
    obtain ⟨hb, hi⟩ := h a (by simp)
    refine ⟨?_, ih (fun st hst => h st (List.mem_cons_of_mem _ hst))⟩
    cases a
    simp_all

/-- Everything `Reset` reads is untouched by `Cycle`: identity, configuration,
queue, execution units, both register files, and the pipeline topology. -/
theorem Cycle_frame (c : Core) :
    (Cycle c).id = c.id ∧ (Cycle c).config = c.config ∧
    (Cycle c).instructionQueue = c.instructionQueue ∧
    (Cycle c).executionUnits = c.executionUnits ∧
    (Cycle c).registersInt = c.registersInt ∧
    (Cycle c).registersFloat = c.registersFloat ∧
    (Cycle c).pipeline.stages.map Stage.static =
      c.pipeline.stages.map Stage.static := by
  unfold Cycle
  simp only [GetStages_eq]
  split <;> split <;> split <;>
    simp_all [fetchNextInstruction, insert_static, advance_static]

/-- Setting one register then resetting equals resetting. -/
theorem map_const_zero_set {α β : Type} (z : β) (l : List α) (i : Nat) (v : α) :
    (l.set i v).map (fun _ => z) = l.map (fun _ => z) := by
  induction l generalizing i with
  | nil => rfl
  | cons a t ih =>
    cases i with
    | zero => rfl
    | succ i => simp [List.set_cons_succ, ih]

/-- `Reset` after one more `Cycle` equals `Reset`. -/
theorem Reset_Cycle (c : Core) : Reset (Cycle c) = Reset c := by
  obtain ⟨h1, h2, h3, h4, h5, h6, h7⟩ := Cycle_frame c
  unfold Reset
  rw [h1, h2, h4, h5, h6, Flush_congr h7]

/-- `Reset` after an integer-register write equals `Reset`. -/
theorem Reset_writeInt (c : Core) (i : Nat) (v : Nat) :
    Reset (writeIntReg c i v) = Reset c := by
  unfold Reset writeIntReg
  simp [map_const_zero_set]

/-- `Reset` after a float-register write equals `Reset`. -/
theorem Reset_writeFloat (c : Core) (i : Nat) (v : Int) :
    Reset (writeFloatReg c i v) = Reset c := by
  unfold Reset writeFloatReg
  simp [map_const_zero_set]

/-- **C8.**  For every core built by `NewProcessor` and every state reached
from it by `Cycle()` calls and register writes, `Reset()` returns the state
immediately after construction: cycle, executed-instruction and busy-cycle
counters 0, program counter 0, empty instruction queue, all integer and float
registers 0, every execution unit idle, and an empty (flushed) pipeline. -/
theorem reset_restores_initial (id : Int) (cfg : Config) (c0 : Core)
    (h0 : NewProcessor id (some cfg) = .ok c0) :
    ∀ c, Reachable c0 c →
      Reset c = c0 ∧
      (Reset c).cycleCount = 0 ∧ (Reset c).executedInstructions = 0 ∧
      (Reset c).busyCycles = 0 ∧ (Reset c).pc = 0 ∧
      (Reset c).instructionQueue = [] ∧
      (∀ v ∈ (Reset c).registersInt, v = 0) ∧
      (∀ v ∈ (Reset c).registersFloat, v = 0) ∧
      (∀ kv ∈ (Reset c).executionUnits, ∀ u ∈ kv.2, u.busy = false) ∧
      IsEmpty (Reset c).pipeline = true := by
  have base : Reset c0 = c0 := by
    simp only [NewProcessor] at h0
    split at h0
    · exact absurd h0 (by simp)
    · exact absurd h0 (by simp)
    · rename_i pipe hpipe
      injection h0 with h0
      subst h0
      have hclear := NewPipeline_clear hpipe
      unfold Reset
      simp [Flush_of_clear hclear, List.map_replicate]
      decide
  have hfields : ∀ c : Core,
      (Reset c).cycleCount = 0 ∧ (Reset c).executedInstructions = 0 ∧
      (Reset c).busyCycles = 0 ∧ (Reset c).pc = 0 ∧
      (Reset c).instructionQueue = [] ∧
      (∀ v ∈ (Reset c).registersInt, v = 0) ∧
      (∀ v ∈ (Reset c).registersFloat, v = 0) ∧
      (∀ kv ∈ (Reset c).executionUnits, ∀ u ∈ kv.2, u.busy = false) ∧
      IsEmpty (Reset c).pipeline = true := by
    intro c
    unfold Reset
    refine ⟨rfl, rfl, rfl, rfl, rfl, ?_, ?_, ?_, ?_⟩
    · intro v hv
      obtain ⟨a, -, h⟩ := List.mem_map.mp hv
      exact h.symm
    · intro v hv
      obtain ⟨a, -, h⟩ := List.mem_map.mp hv
      exact h.symm
    · intro kv hkv u hu
      obtain ⟨kv0, -, h⟩ := List.mem_map.mp hkv
      subst h
      obtain ⟨u0, -, h2⟩ := List.mem_map.mp hu
      subst h2
      rfl
    · simp [IsEmpty, Flush, List.all_eq_true]
  intro c hc
  induction hc with
  | refl => exact ⟨base, hfields c0⟩
  | cycle _ ih =>
    rw [Reset_Cycle]
    exact ⟨ih.1, hfields _⟩
  | writeInt i v _ ih =>
    rw [Reset_writeInt]
    exact ⟨ih.1, hfields _⟩
  | writeFloat i v _ ih =>
    rw [Reset_writeFloat]
    exact ⟨ih.1, hfields _⟩

/-- Witness for `reset_restores_initial`: the default-configuration core,
cycled once, resets back to its freshly constructed state. -/
theorem reset_restores_initial_witness :
    NewProcessor 0 (some defaultConfig) = .ok rvCore0 ∧
    Reset (Cycle rvCore0) = rvCore0 :=
  ⟨rfl,
   (reset_restores_initial 0 defaultConfig rvCore0 rfl (Cycle rvCore0)
      (Reachable.cycle Reachable.refl)).1⟩

/-! # Claim C9: statistics after a completed run -/

/-- The running total of `calculateStatistics`' core loop is the sum of the
executed-instruction counts. -/
theorem statsLoop_total (cores : List Core) :
    ∀ (i : Nat) (total : Int) (util : List Rat),
      (statsLoop cores i total util).1 =
        total + (cores.map GetExecutedInstructions).sum := by
  induction cores with
  | nil => intro i total util; simp [statsLoop]
  | cons c rest ih =>
    intro i total util
    show (statsLoop rest (i + 1) (total + GetExecutedInstructions c) _).1 = _
    rw [ih]
    simp [List.sum_cons]
    ring

/-- Setting the element right after a prefix. -/
theorem set_append_length {α : Type} (pre : List α) (u : α) (us : List α)
    (v : α) : (pre ++ u :: us).set pre.length v = pre ++ v :: us := by
  induction pre with
  | nil => rfl
  | cons a t ih => simp [List.set_cons_succ, ih]

/-- The utilization slice written by `calculateStatistics`' core loop: each
index `i` receives core `i`'s utilization. -/
theorem statsLoop_util (cores : List Core) :
    ∀ (pre util : List Rat) (total : Int), util.length = cores.length →
      (statsLoop cores pre.length total (pre ++ util)).2 =
        pre ++ cores.map GetUtilization := by
  induction cores with
  | nil =>
    intro pre util total hlen
    rw [List.length_eq_zero.mp hlen]
    simp [statsLoop]
  | cons c rest ih =>
    intro pre util total hlen
    cases util with
    | nil => simp at hlen
    | cons u us =>
      show (statsLoop rest (pre.length + 1) _
        ((pre ++ u :: us).set pre.length (GetUtilization c))).2 = _
      rw [set_append_length]
      have : pre ++ GetUtilization c :: us = (pre ++ [GetUtilization c]) ++ us := by
        simp
      rw [this]
      have hlen' : us.length = rest.length := by simpa using hlen
      have hplen : pre.length + 1 = (pre ++ [GetUtilization c]).length := by simp
      rw [hplen, ih (pre ++ [GetUtilization c]) us
        (total + GetExecutedInstructions c) hlen']
      simp

/-- **C9.**  When `Run(C)` completes normally, the recomputed statistics
satisfy: `TotalCycles = C`; `InstructionsExecuted` is the sum over all cores
of that core's executed-instruction count; `CoreUtilization` lists each
core's utilization; and `IPC` is `InstructionsExecuted / (C × core count)` —
the per-core average.  The final cores are each the result of `C` sequential
`Cycle()` calls (cores share no state, so the concurrent workers commute). -/
theorem run_statistics_spec (cycles : Int) (s s' : Simulator)
    (hlen : s.stats.coreUtilization.length = s.cores.length)
    (hrun : Run cycles s = .ok s') :
    s'.stats.totalCycles = cycles ∧
    s'.stats.instructionsExecuted = (s'.cores.map GetExecutedInstructions).sum ∧
    s'.stats.coreUtilization = s'.cores.map GetUtilization ∧
    s'.stats.ipc = ((s'.cores.map GetExecutedInstructions).sum : Rat) /
      ((cycles * (s'.cores.length : Int) : Int) : Rat) ∧
    s'.cores = s.cores.map (fun c => Cycle^[cycles.toNat] c) ∧
    0 < cycles := by
  unfold Run at hrun
  split at hrun
  · exact absurd hrun (by simp)
  · rename_i hpos
    split at hrun
    · exact absurd hrun (by simp)
    · injection hrun with hrun
      subst hrun
      have hlen' : s.stats.coreUtilization.length =
          (s.cores.map (fun c => Cycle^[cycles.toNat] c)).length := by
        simpa using hlen
      have hutil := statsLoop_util (s.cores.map (fun c => Cycle^[cycles.toNat] c))
        [] s.stats.coreUtilization 0 hlen'
      have htotal := statsLoop_total (s.cores.map (fun c => Cycle^[cycles.toNat] c))
        0 0 s.stats.coreUtilization
      simp only [List.nil_append, List.length_nil] at hutil
      simp only [calculateStatistics]
      rw [if_pos (show cycles > 0 by omega)]
      refine ⟨by simp, ?_, ?_, ?_, by simp, by omega⟩
      · rw [htotal]
        simp
      · exact hutil
      · rw [htotal]
        simp

/-- Witness for `run_statistics_spec`: the single-core simulator run for five
cycles. -/
theorem run_statistics_spec_witness :
    simRV5.stats.totalCycles = 5 ∧
    simRV5.stats.instructionsExecuted =
      (simRV5.cores.map GetExecutedInstructions).sum ∧
    simRV5.stats.coreUtilization = simRV5.cores.map GetUtilization ∧
    simRV5.stats.ipc = ((simRV5.cores.map GetExecutedInstructions).sum : Rat) /
      ((((5 : Int) * (simRV5.cores.length : Int) : Int)) : Rat) ∧
    simRV5.cores = simRV.cores.map (fun c => Cycle^[(5 : Int).toNat] c) ∧
    (0 : Int) < 5 :=
  run_statistics_spec 5 simRV simRV5 (by decide) rfl

/-! # Claim C3: NewPipeline shape -/

/-- **C3 counterexample.**  NewPipeline is not what the claim says on three
concrete inputs: at depth 2 the generic topology's overlapping index writes
leave stage 0 named "Execute" (and the last stage "Decode"); at depth 1 the
write to index 1 of a length-1 slice panics instead of returning; and for x86
at depth 12 the last stage is a generic "ExtraStage", not "Writeback". -/
theorem newPipeline_shape_cex :
    stageNames (NewPipeline 2 "RISC-V") = some ["Execute", "Decode"] ∧
    NewPipeline 1 "RISC-V" = .panicked ∧
    (stageNames (NewPipeline 12 "x86")).map (fun l => l.getLast?) =
      some (some "ExtraStage1") := by
  decide

/-- The fill loops preserve the stage-list length. -/
theorem fillMiddleAux_length (d : Nat) :
    ∀ (k i : Nat) (l : List Stage), (fillMiddleAux d k i l).length = l.length := by
  intro k
  induction k with
  | zero => intro i l; rfl
  | succ k ih => intro i l; rw [fillMiddleAux, ih]; simp

/-- The `ExtraStage` fill loop preserves the stage-list length. -/
theorem fillExtraAux_length :
    ∀ (k i : Nat) (l : List Stage), (fillExtraAux k i l).length = l.length := by
  intro k
  induction k with
  | zero => intro i l; rfl
  | succ k ih => intro i l; rw [fillExtraAux, ih]; simp

/-- The generic fill loop does not touch indices below its start. -/
theorem fillMiddleAux_getElem?_lt (d : Nat) :
    ∀ (k i : Nat) (l : List Stage) (j : Nat), j < i →
      (fillMiddleAux d k i l)[j]? = l[j]? := by
  intro k
  induction k with
  | zero => intro i l j hj; rfl
  | succ k ih =>
    intro i l j hj
    rw [fillMiddleAux, ih (i + 1) _ j (by omega),
      List.getElem?_set_ne (by omega)]

/-- The generic fill loop does not touch indices at or above its end. -/
theorem fillMiddleAux_getElem?_ge (d : Nat) :
    ∀ (k i : Nat) (l : List Stage) (j : Nat), i + k ≤ j →
      (fillMiddleAux d k i l)[j]? = l[j]? := by
  intro k
  induction k with
  | zero => intro i l j hj; rfl
  | succ k ih =>
    intro i l j hj
    rw [fillMiddleAux, ih (i + 1) _ j (by omega),
      List.getElem?_set_ne (by omega)]

/-- The `ExtraStage` fill loop does not touch indices below its start. -/
theorem fillExtraAux_getElem?_lt :
    ∀ (k i : Nat) (l : List Stage) (j : Nat), j < i →
      (fillExtraAux k i l)[j]? = l[j]? := by
  intro k
  induction k with
  | zero => intro i l j hj; rfl
  | succ k ih =>
    intro i l j hj
    rw [fillExtraAux, ih (i + 1) _ j (by omega),
      List.getElem?_set_ne (by omega)]

/-- Length of the deep x86 base slice. -/
theorem x86DeepBase_length (d : Nat) : (x86DeepBase d).length = d := by
  simp [x86DeepBase]

/-- Stage 0 of the deep x86 base slice. -/
theorem x86DeepBase_getElem?_zero (d : Nat) (h : 10 < d) :
    (x86DeepBase d)[0]? = some (mkStage "Fetch1" 1) := by
  unfold x86DeepBase
  repeat rw [List.getElem?_set_ne (by omega)]
  rw [List.getElem?_set_self (by simp only [List.length_replicate]; omega)]

/-- Stage 10 (Writeback) of the deep x86 base slice. -/
theorem x86DeepBase_getElem?_ten (d : Nat) (h : 10 < d) :
    (x86DeepBase d)[10]? = some (mkStage "Writeback" 1) := by
  unfold x86DeepBase
  rw [List.getElem?_set_self
    (by simp only [List.length_set, List.length_replicate]; omega)]

/-- An in-range Go slice write returns normally. -/
theorem setStage_pos {l : List Stage} {i : Nat} {s : Stage} (h : i < l.length) :
    setStage l i s = .ok (l.set i s) := by
  simp [setStage, h]

/-- **C3 (amended).**  `NewPipeline(depth, isa)`:
* returns the invalid-depth error iff `depth ≤ 0`;
* at `depth = 1` it does not return at all — the generic branch's write to
  stage index 1 of a length-1 slice panics;
* for every `depth ≥ 2` it returns exactly `depth` stages; stage 0 is a
  fetch-type stage ("Fetch" or "Fetch1") whenever `depth ≥ 3` but is named
  "Execute" at `depth = 2` (overlapping generic index writes); and the last
  stage is named "Writeback" whenever `depth ≥ 3`, except x86 with
  `depth ≥ 12`, where the last stage is a generically numbered extra stage. -/
theorem newPipeline_shape_amended (depth : Int) (isa : String) :
    (depth ≤ 0 ∧ NewPipeline depth isa = .err "pipeline depth must be positive") ∨
    (depth = 1 ∧ NewPipeline depth isa = .panicked) ∨
    (2 ≤ depth ∧ ∃ p, NewPipeline depth isa = .ok p ∧
      p.stages.length = depth.toNat ∧
      (depth = 2 → (p.stages.head?).map Stage.name = some "Execute") ∧
      (3 ≤ depth →
        (p.stages.head?).map Stage.name = some "Fetch" ∨
        (p.stages.head?).map Stage.name = some "Fetch1") ∧
      (3 ≤ depth → ¬(isa = "x86" ∧ 12 ≤ depth) →
        (p.stages.getLast?).map Stage.name = some "Writeback")) := by
  by_cases h0 : depth ≤ 0
  · exact Or.inl ⟨h0, by simp [NewPipeline, h0]⟩
  · by_cases h5 : depth.toNat = 5 ∧ (isa = "RISC-V" ∨ isa = "MIPS")
    · refine Or.inr (Or.inr ⟨by omega,
        ⟨⟨[mkStage "Fetch" 1, mkStage "Decode" 1, mkStage "Execute" 1,
           mkStage "Memory" 1, mkStage "Writeback" 1]⟩, ?_, ?_, ?_, ?_, ?_⟩⟩)
      · unfold NewPipeline
        rw [if_neg h0, if_pos h5]
      · simp only [List.length_cons, List.length_nil]
        omega
      · intro h2
        omega
      · intro h3
        exact Or.inl rfl
      · intro h3 hnx
        rfl
    · by_cases h6 : depth.toNat = 6 ∧ isa = "x86"
      · refine Or.inr (Or.inr ⟨by omega,
          ⟨⟨[mkStage "Fetch" 1, mkStage "Decode" 2, mkStage "Issue" 1,
             mkStage "Execute" 1, mkStage "Memory" 1, mkStage "Writeback" 1]⟩,
            ?_, ?_, ?_, ?_, ?_⟩⟩)
        · unfold NewPipeline
          rw [if_neg h0, if_neg h5, if_pos h6]
        · simp only [List.length_cons, List.length_nil]
          omega
        · intro h2
          omega
        · intro h3
          exact Or.inl rfl
        · intro h3 hnx
          rfl
      · by_cases h10 : depth.toNat > 10 ∧ isa = "x86"
        · refine Or.inr (Or.inr ⟨by omega,
            ⟨⟨fillExtra depth.toNat 11 (x86DeepBase depth.toNat)⟩, ?_, ?_, ?_, ?_, ?_⟩⟩)
          · unfold NewPipeline
            rw [if_neg h0, if_neg h5, if_neg h6, if_pos h10]
          · show (fillExtra depth.toNat 11 (x86DeepBase depth.toNat)).length = _
            unfold fillExtra
            rw [fillExtraAux_length, x86DeepBase_length]
          · intro h2
            omega
          · intro h3
            refine Or.inr ?_
            show ((fillExtra depth.toNat 11 (x86DeepBase depth.toNat)).head?).map
              Stage.name = _
            rw [List.head?_eq_getElem?]
            unfold fillExtra
            rw [fillExtraAux_getElem?_lt _ _ _ _ (by omega),
              x86DeepBase_getElem?_zero _ (by omega)]
            rfl
          · intro h3 hnx
            have hd : depth.toNat = 11 := by
              rcases h10 with ⟨hgt, hx⟩
              by_contra hne
              exact hnx ⟨hx, by omega⟩
            show ((fillExtra depth.toNat 11 (x86DeepBase depth.toNat)).getLast?).map
              Stage.name = _
            rw [List.getLast?_eq_getElem?]
            unfold fillExtra
            rw [fillExtraAux_length, x86DeepBase_length, hd]
            show ((x86DeepBase 11)[11 - 1]?).map Stage.name = _
            rw [x86DeepBase_getElem?_ten 11 (by omega)]
            rfl
        · by_cases h1 : depth = 1
          · refine Or.inr (Or.inl ⟨h1, ?_⟩)
            subst h1
            simp [NewPipeline, setStage]
          · have hd2 : 2 ≤ depth.toNat := by omega
            by_cases h3 : depth.toNat = 3
            · refine Or.inr (Or.inr ⟨by omega,
                ⟨⟨(((List.replicate depth.toNat nilStage).set 0 (mkStage "Fetch" 1)).set
                    (depth.toNat - 1) (mkStage "Writeback" 1)).set 1 (mkStage "Execute" 1)⟩,
                  ?_, ?_, ?_, ?_, ?_⟩⟩)
              · unfold NewPipeline
                rw [if_neg h0, if_neg h5, if_neg h6, if_neg h10]
                simp only [setStage_pos, List.length_set, List.length_replicate,
                  (show (0 : Nat) < depth.toNat by omega),
                  (show depth.toNat - 1 < depth.toNat by omega),
                  (show 1 < depth.toNat by omega), if_pos h3]
              · simp only [List.length_set, List.length_replicate]
              · intro h2
                omega
              · intro h3'
                refine Or.inl ?_
                rw [List.head?_eq_getElem?]
                rw [List.getElem?_set_ne (by omega), List.getElem?_set_ne (by omega),
                  List.getElem?_set_self
                    (by simp only [List.length_replicate]; omega)]
                rfl
              · intro h3' hnx
                rw [List.getLast?_eq_getElem?]
                simp only [List.length_set, List.length_replicate]
                rw [List.getElem?_set_ne (by omega),
                  List.getElem?_set_self
                    (by simp only [List.length_set, List.length_replicate]; omega)]
                rfl
            · refine Or.inr (Or.inr ⟨by omega,
                ⟨⟨fillMiddle depth.toNat 2
                    (((((List.replicate depth.toNat nilStage).set 0
                        (mkStage "Fetch" 1)).set (depth.toNat - 1)
                        (mkStage "Writeback" 1)).set 1 (mkStage "Decode" 1)).set
                      (depth.toNat - 2) (mkStage "Execute" 1))⟩, ?_, ?_, ?_, ?_, ?_⟩⟩)
              · unfold NewPipeline
                rw [if_neg h0, if_neg h5, if_neg h6, if_neg h10]
                simp only [setStage_pos, List.length_set, List.length_replicate,
                  (show (0 : Nat) < depth.toNat by omega),
                  (show depth.toNat - 1 < depth.toNat by omega),
                  (show 1 < depth.toNat by omega),
                  (show depth.toNat - 2 < depth.toNat by omega), if_neg h3]
              · show (fillMiddle _ 2 _).length = _
                unfold fillMiddle
                rw [fillMiddleAux_length]
                simp only [List.length_set, List.length_replicate]
              · intro h2
                have h2' : depth.toNat = 2 := by omega
                simp only [h2']
                decide
              · intro h3'
                have hd4 : 4 ≤ depth.toNat := by omega
                refine Or.inl ?_
                rw [List.head?_eq_getElem?]
                show ((fillMiddle depth.toNat 2 _)[0]?).map Stage.name = _
                unfold fillMiddle
                rw [fillMiddleAux_getElem?_lt _ _ _ _ _ (by omega),
                  List.getElem?_set_ne (by omega), List.getElem?_set_ne (by omega),
                  List.getElem?_set_ne (by omega),
                  List.getElem?_set_self
                    (by simp only [List.length_replicate]; omega)]
                rfl
              · intro h3' hnx
                have hd4 : 4 ≤ depth.toNat := by omega
                rw [List.getLast?_eq_getElem?]
                show ((fillMiddle _ 2 _)[(fillMiddle _ 2 _).length - 1]?).map
                  Stage.name = _
                unfold fillMiddle
                rw [fillMiddleAux_length]
                simp only [List.length_set, List.length_replicate]
                rw [fillMiddleAux_getElem?_ge _ _ _ _ _ (by omega),
                  List.getElem?_set_ne (by omega), List.getElem?_set_ne (by omega),
                  List.getElem?_set_self
                    (by simp only [List.length_set, List.length_replicate]; omega)]
                rfl

/-- Witness for `newPipeline_shape_amended`: a generic 7-stage ARM pipeline
is successfully constructed with seven stages. -/
theorem newPipeline_shape_amended_witness :
    (stageNames (NewPipeline 7 "ARM")).map List.length = some 7 := by
  rcases newPipeline_shape_amended 7 "ARM" with ⟨h, -⟩ | ⟨h, -⟩ |
    ⟨-, p, hok, hlen, -⟩
  · omega
  · omega
  · rw [hok]
    simp [stageNames, hlen]

end CpuSim
